import Mathlib

/-!
Shallow embedding of the core algorithms of the `stocks` repository:

* `src/IRP/rebalancing/rebalance.py` — `compute_rebalance`, `greedy_cash_spend`,
  the holdings normalisation of `load_holdings`;
* `src/IRP/k-allweather/k-allweather.py` — `build_allocation`;
* `src/ISA/backup/vaa_efa.py` — `snapshot_momentum`, `resolve_with_proxy`,
  `decision_banner`;
* `src/ISA/dualmomentom.py` — `trailing_12m_return`, the decision rule of
  `decide_allocation`;
* `src/tmp/dualm.py` — `pick_asset`.

Python floats are modelled as rationals (`ℚ`), pandas rows as lists, pandas
`map`/dict lookups as association-list lookups, and `raise` as `Except.error`.
The `while` loop of `greedy_cash_spend` is modelled with explicit fuel
(`none` = the loop did not finish within the given fuel), since its
termination depends on the prices being positive.  `pandas.Series.round`
(numpy round) is round-half-to-even, modelled exactly by `roundHE`.
-/

namespace Stocks

set_option maxRecDepth 8000

/-- numpy / pandas `.round()`: round half to even, as used on the monetary
columns of `rebalance.py`. -/
def roundHE (q : ℚ) : ℤ :=
  let f := ⌊q⌋
  let r := q - f
  if r < 1/2 then f
  else if 1/2 < r then f + 1
  else if f % 2 = 0 then f else f + 1

/-- One row of the rebalance DataFrame of `compute_rebalance`
(`rebalance.py`): 종목코드, 보유수량, 현재가, 목표비중, 현재가치, 목표가치,
목표수량, 거래수량, 리밸런싱후수량, 리밸런싱후가치, 매수/매도수수료,
매수금액, 매도금액, 거래금액(순). -/
structure Line where
  code : String
  qty : ℤ
  price : ℚ
  weight : ℚ
  curValue : ℚ
  targetValue : ℚ
  targetQty : ℤ
  tradeQty : ℤ
  afterQty : ℤ
  afterValue : ℚ
  buyFee : ℚ
  sellFee : ℚ
  buyAmt : ℚ
  sellAmt : ℚ
  netAmt : ℚ
deriving DecidableEq, Repr

/-- Default line used with `List.getD` (all fields zero). -/
def dflLine : Line :=
  { code := "", qty := 0, price := 0, weight := 0, curValue := 0,
    targetValue := 0, targetQty := 0, tradeQty := 0, afterQty := 0,
    afterValue := 0, buyFee := 0, sellFee := 0, buyAmt := 0, sellAmt := 0,
    netAmt := 0 }

/-- The summary dict of `compute_rebalance` (입력 총 평가금액, 리밸런싱 후 총
평가금액, 총 매수금액, 총 매도금액, 총 수수료, 순거래금액, 수수료 반영 가정
순가치, 총 평가금액 변화). -/
structure Summary where
  totalBefore : ℚ
  totalAfter : ℚ
  totalBuy : ℚ
  totalSell : ℚ
  totalFee : ℚ
  netCash : ℚ
  feeAdjusted : ℚ
  delta : ℚ
deriving DecidableEq, Repr

def dflSummary : Summary :=
  { totalBefore := 0, totalAfter := 0, totalBuy := 0, totalSell := 0,
    totalFee := 0, netCash := 0, feeAdjusted := 0, delta := 0 }

/-- `price_map` lookup (`df["종목코드"].map(price_map)`): `none` = NaN. -/
def lookupPrice (pm : List (String × ℚ)) (c : String) : Option ℚ :=
  (pm.find? (fun p => p.1 = c)).map (·.2)

/-- Price with NaN defaulted (used only under the missing-price guard). -/
def priceOfD (pm : List (String × ℚ)) (c : String) : ℚ :=
  (lookupPrice pm c).getD 0

/-- `df["종목코드"].map(TARGET_WEIGHTS).fillna(0.0)`. -/
def weightOf (tw : List (String × ℚ)) (c : String) : ℚ :=
  ((tw.find? (fun p => p.1 = c)).map (·.2)).getD 0

/-- `sum(TARGET_WEIGHTS.values())`. -/
def sumWeights (tw : List (String × ℚ)) : ℚ :=
  (tw.map (·.2)).sum

/-- `total_before = Σ 보유수량 × 현재가`. -/
def totalBeforeOf (holdings : List (String × ℤ)) (pm : List (String × ℚ)) : ℚ :=
  (holdings.map (fun h => (h.2 : ℚ) * priceOfD pm h.1)).sum

/-- One row of the rebalance computation, lines 183–214 of `rebalance.py`:
목표가치 = total_before × 목표비중, 목표수량 = floor(목표가치/현재가),
거래수량 = 목표수량 − 보유수량, amounts and fees with the fee-adjusted
amounts rounded half-even. -/
def mkLine (totalBefore : ℚ) (tw : List (String × ℚ)) (feeRate : ℚ)
    (c : String) (q : ℤ) (p : ℚ) : Line :=
  let w := weightOf tw c
  let tv := totalBefore * w
  let tq : ℤ := ⌊tv / p⌋
  let trade := tq - q
  let afterQ := q + trade
  let buyRaw : ℚ := ((max trade 0 : ℤ) : ℚ) * p
  let sellRaw : ℚ := ((max (-trade) 0 : ℤ) : ℚ) * p
  let bFee := if 0 < feeRate then buyRaw * feeRate else 0
  let sFee := if 0 < feeRate then sellRaw * feeRate else 0
  let bAmt : ℚ := ((roundHE (buyRaw + bFee) : ℤ) : ℚ)
  let sAmt : ℚ := ((roundHE (sellRaw - sFee) : ℤ) : ℚ)
  { code := c, qty := q, price := p, weight := w,
    curValue := (q : ℚ) * p,
    targetValue := tv, targetQty := tq, tradeQty := trade,
    afterQty := afterQ, afterValue := ((afterQ : ℤ) : ℚ) * p,
    buyFee := bFee, sellFee := sFee,
    buyAmt := bAmt, sellAmt := sAmt, netAmt := bAmt - sAmt }

/-- The per-instrument table before the greedy sweep. -/
def linesOf (holdings : List (String × ℤ)) (pm : List (String × ℚ))
    (tw : List (String × ℚ)) (feeRate : ℚ) : List Line :=
  holdings.map (fun h =>
    mkLine (totalBeforeOf holdings pm) tw feeRate h.1 h.2 (priceOfD pm h.1))

def sumBuy (ls : List Line) : ℚ := (ls.map Line.buyAmt).sum
def sumSell (ls : List Line) : ℚ := (ls.map Line.sellAmt).sum
def sumFee (ls : List Line) : ℚ := (ls.map (fun l => l.buyFee + l.sellFee)).sum
def sumNet (ls : List Line) : ℚ := (ls.map Line.netAmt).sum
def sumAfter (ls : List Line) : ℚ := (ls.map Line.afterValue).sum

/-- `(목표가치 - 리밸런싱후가치) / 현재가` (line 139 of `rebalance.py`). -/
def gapPerShare (l : Line) : ℚ := (l.targetValue - l.afterValue) / l.price

/-- Insert an index into a list already sorted by descending gap
(ties keep the earlier index first). -/
def insertIdxDesc (gap : ℕ → ℚ) (i : ℕ) : List ℕ → List ℕ
  | [] => [i]
  | j :: js => if gap j ≤ gap i then i :: j :: js else j :: insertIdxDesc gap i js

/-- `df.sort_values("gap_per_share", ascending=False).index.tolist()`. -/
def sortIdxDesc (gap : ℕ → ℚ) : List ℕ → List ℕ
  | [] => []
  | i :: is => insertIdxDesc gap i (sortIdxDesc gap is)

def greedyOrder (lines : List Line) : List ℕ :=
  sortIdxDesc (fun i => gapPerShare (lines.getD i dflLine)) (List.range lines.length)

/-- The `while i < len(order)` loop of `greedy_cash_spend` (lines 142–152):
if `leftover_cash >= price` buy one share at the current position, else
advance.  Returns the extra shares bought per position (in sweep order)
and the final leftover cash; `none` = fuel exhausted (the Python loop
would still be running). -/
def greedyRun (pAt : ℕ → ℚ) : ℕ → List ℕ → ℚ → Option (List (ℕ × ℕ) × ℚ)
  | _, [], c => some ([], c)
  | 0, _ :: _, _ => none
  | fuel + 1, i :: rest, c =>
    if pAt i ≤ c then
      match greedyRun pAt fuel (i :: rest) (c - pAt i) with
      | some ((j, n) :: tl, cf) => some ((j, n + 1) :: tl, cf)
      | _ => none
    else
      match greedyRun pAt fuel rest c with
      | some (res, cf) => some ((i, 0) :: res, cf)
      | none => none

/-- Extra shares bought at original index `i` during the sweep. -/
def extraOf (res : List (ℕ × ℕ)) (i : ℕ) : ℕ :=
  ((res.find? (fun r => r.1 = i)).map (·.2)).getD 0

/-- `df.at[idx,"거래수량"] += 1; df.at[idx,"리밸런싱후수량"] += 1;
리밸런싱후가치 = 리밸런싱후수량 * price`, applied `k` times. -/
def bumpLine (k : ℕ) (l : Line) : Line :=
  { l with tradeQty := l.tradeQty + k, afterQty := l.afterQty + k,
           afterValue := ((l.afterQty + k : ℤ) : ℚ) * l.price }

/-- The post-sweep recomputation (lines 154–157 of `rebalance.py`):
매수금액 = round(clip(거래수량, lower=0) × 현재가),
매도금액 = round(−clip(거래수량, upper=0) × 현재가),
거래금액(순) = 매수금액 − 매도금액.  Note: the fee columns are NOT touched
and the recomputed amounts do NOT include fees. -/
def recomputeAmts (l : Line) : Line :=
  let bAmt : ℚ := ((roundHE (((max l.tradeQty 0 : ℤ) : ℚ) * l.price) : ℤ) : ℚ)
  let sAmt : ℚ := ((roundHE (((max (-l.tradeQty) 0 : ℤ) : ℚ) * l.price) : ℤ) : ℚ)
  { l with buyAmt := bAmt, sellAmt := sAmt, netAmt := bAmt - sAmt }

/-- Apply the sweep result to the table (row `j` of the table has original
index `k + j`). -/
def applySweep (res : List (ℕ × ℕ)) : ℕ → List Line → List Line
  | _, [] => []
  | k, l :: ls => recomputeAmts (bumpLine (extraOf res k) l) :: applySweep res (k + 1) ls

/-- `greedy_cash_spend(df, leftover_cash)` (lines 132–158 of `rebalance.py`),
with explicit fuel for the while loop. -/
def greedy_cash_spend (fuel : ℕ) (lines : List Line) (leftover : ℚ) :
    Option (List Line) :=
  if leftover ≤ 0 then some lines
  else
    match greedyRun (fun i => (lines.getD i dflLine).price) fuel
        (greedyOrder lines) leftover with
    | none => none
    | some (res, _) => some (applySweep res 0 lines)

/-- Summary numbers: `총 매수금액/총 매도금액/순거래금액` are re-summed from the
post-greedy table, while `리밸런싱 후 총 평가금액` and `총 수수료` keep their
pre-greedy values (lines 200, 219, 227–229 of `rebalance.py`). -/
def mkSummary (totalBefore : ℚ) (pre post : List Line) : Summary :=
  { totalBefore := totalBefore
    totalAfter := sumAfter pre
    totalBuy := sumBuy post
    totalSell := sumSell post
    totalFee := sumFee pre
    netCash := sumNet post
    feeAdjusted := sumAfter pre - sumFee pre
    delta := sumAfter pre - totalBefore }

/-- `df_out` ordering: `sort_values(["목표비중","종목코드"], ascending=[False, True])`. -/
def lineBefore (a b : Line) : Bool :=
  decide (b.weight < a.weight) || (decide (a.weight = b.weight) && decide (a.code < b.code))

def insertLine (a : Line) : List Line → List Line
  | [] => [a]
  | b :: bs => if lineBefore a b then a :: b :: bs else b :: insertLine a bs

def sortLines : List Line → List Line
  | [] => []
  | l :: ls => insertLine l (sortLines ls)

/-- `compute_rebalance(holdings, price_map, fee_rate, use_greedy)`
(lines 161–254 of `rebalance.py`).  `none` = the greedy while loop did not
finish within `fuel`; `.error` = the `raise` branches (missing price,
weight-sum violation).  The Python message lists every missing code; here
the message carries the first one — the raise condition is identical. -/
def compute_rebalance (fuel : ℕ) (holdings : List (String × ℤ))
    (pm : List (String × ℚ)) (tw : List (String × ℚ))
    (feeRate : ℚ) (useGreedy : Bool) :
    Option (Except String (List Line × Summary)) :=
  match holdings.find? (fun h => (lookupPrice pm h.1).isNone) with
  | some h => some (.error ("가격을 찾지 못한 코드: " ++ h.1))
  | none =>
    if 1/1000000 < |sumWeights tw - 1| then
      some (.error "TARGET_WEIGHTS 합계가 1이 아닙니다. 설정을 확인하세요.")
    else
      let totalBefore := totalBeforeOf holdings pm
      let lines := linesOf holdings pm tw feeRate
      let leftover := sumSell lines - sumBuy lines
      if useGreedy ∧ 0 < leftover then
        match greedy_cash_spend fuel lines leftover with
        | none => none
        | some lines2 => some (.ok (sortLines lines2, mkSummary totalBefore lines lines2))
      else
        some (.ok (sortLines lines, mkSummary totalBefore lines lines))

/-- Result lines of a successful run (empty list otherwise). -/
def linesOut : Option (Except String (List Line × Summary)) → List Line
  | some (.ok p) => p.1
  | _ => []

/-- Summary of a successful run (`dflSummary` otherwise). -/
def summaryOut : Option (Except String (List Line × Summary)) → Summary
  | some (.ok p) => p.2
  | _ => dflSummary

def lineAt (r : Option (Except String (List Line × Summary))) (k : ℕ) : Line :=
  (linesOut r).getD k dflLine

def isOkResult : Option (Except String (List Line × Summary)) → Bool
  | some (.ok _) => true
  | _ => false

/-- The quantity normalisation of `load_holdings` (lines 93–110 of
`rebalance.py`): drop rows with no 종목코드, aggregate duplicated codes,
keep rows with 보유수량 > 0, and raise when nothing is left. -/
def addQty (acc : List (String × ℤ)) (c : String) (q : ℤ) : List (String × ℤ) :=
  match acc with
  | [] => [(c, q)]
  | x :: xs => if x.1 = c then (x.1, x.2 + q) :: xs else x :: addQty xs c q

def aggregateRows (rows : List (String × ℤ)) : List (String × ℤ) :=
  rows.foldl (fun acc r => addQty acc r.1 r.2) []

def load_holdings_core (rows : List (Option String × ℤ)) :
    Except String (List (String × ℤ)) :=
  let cleaned := rows.filterMap (fun r => r.1.map (fun c => (c, r.2)))
  let agg := aggregateRows cleaned
  let pos := agg.filter (fun x => decide (0 < x.2))
  if pos = [] then .error "유효한 보유 종목(수량>0)이 없습니다. 파일 내용을 확인하세요."
  else .ok pos

/-! ## k-allweather (`build_allocation`) -/

/-- One row of `build_allocation` (`k-allweather.py`, lines 31–47). -/
structure AllocRow where
  name : String
  code : String
  frac : ℚ
  price : ℚ
  targetAmt : ℚ
  qty : ℤ
  buyAmt : ℚ
  residual : ℚ
deriving DecidableEq, Repr

def dflAlloc : AllocRow :=
  { name := "", code := "", frac := 0, price := 0, targetAmt := 0, qty := 0,
    buyAmt := 0, residual := 0 }

/-- `build_allocation(total_krw)`: per asset, `target_amt = total × 비율`,
`qty = floor(target_amt / price)`, `buy_amt = qty × price`,
`잔여 = target_amt − buy_amt`.  Prices come from the external
`get_last_price`, modelled by `priceOf`.  (The 합계 display row is not
part of the per-instrument data and is not modelled.) -/
def build_allocation (priceOf : String → ℚ)
    (assets : List (String × String × ℚ)) (total : ℤ) : List AllocRow :=
  assets.map (fun a =>
    let price := priceOf a.2.1
    let targetAmt := (total : ℚ) * a.2.2
    let qty : ℤ := ⌊targetAmt / price⌋
    { name := a.1, code := a.2.1, frac := a.2.2, price := price,
      targetAmt := targetAmt, qty := qty,
      buyAmt := (qty : ℚ) * price,
      residual := targetAmt - (qty : ℚ) * price })

/-! ## Momentum engine (`vaa_efa.py`, `dualmomentom.py`) -/

/-- `MIN_MONTHS = 13` (`vaa_efa.py` line 16). -/
def MIN_MONTHS : ℕ := 13

/-- Body of `snapshot_momentum` (lines 160–175 of `vaa_efa.py`):
`P0 = iloc[-1]`, `P1 = iloc[-2]`, `P3 = iloc[-4]`, `P6 = iloc[-7]`,
`P12 = iloc[-13]`, `r_k = P0/Pk − 1`,
`score = 12*r1 + 4*r3 + 2*r6 + 1*r12` (the `*100` is commented out in the
source, so the score equals the raw weighted sum). -/
def snapshot_core (monthly : List ℚ) : ℚ × ℚ × ℚ × ℚ × ℚ :=
  let n := monthly.length
  let P0 := monthly.getD (n - 1) 0
  let P1 := monthly.getD (n - 2) 0
  let P3 := monthly.getD (n - 4) 0
  let P6 := monthly.getD (n - 7) 0
  let P12 := monthly.getD (n - 13) 0
  let r1 := P0 / P1 - 1
  let r3 := P0 / P3 - 1
  let r6 := P0 / P6 - 1
  let r12 := P0 / P12 - 1
  (r1, r3, r6, r12, 12 * r1 + 4 * r3 + 2 * r6 + 1 * r12)

/-- `snapshot_momentum(monthly)` (lines 137–175 of `vaa_efa.py`): raises
when fewer than `MIN_MONTHS` monthly snapshots are available. -/
def snapshot_momentum (monthly : List ℚ) : Except String (ℚ × ℚ × ℚ × ℚ × ℚ) :=
  if monthly.length < MIN_MONTHS then .error "월말 시리즈가 부족합니다."
  else .ok (snapshot_core monthly)

/-- `trailing_12m_return(monthly)` (lines 54–60 of `dualmomentom.py`):
`p0/p12 − 1` with `p0 = iloc[-1]`, `p12 = iloc[-13]`; raises when fewer
than 13 points are available. -/
def trailing_12m_return (monthly : List ℚ) : Except String ℚ :=
  if monthly.length < 13 then
    .error "12개월 수익률 계산에 필요한 월말 데이터가 부족합니다."
  else
    .ok (monthly.getD (monthly.length - 1) 0 /
         monthly.getD (monthly.length - 13) 0 - 1)

/-- Proxy fallback scan of `resolve_with_proxy` (lines 188–192 of
`vaa_efa.py`): first proxy with enough history wins. -/
def tryProxies (mOf : String → List ℚ) : List String → Option (String × (ℚ × ℚ × ℚ × ℚ × ℚ))
  | [] => none
  | p :: ps =>
    if MIN_MONTHS ≤ (mOf p).length then some (p, snapshot_core (mOf p))
    else tryProxies mOf ps

/-- `resolve_with_proxy(us_ticker)` (lines 177–194 of `vaa_efa.py`),
parameterised by the externally fetched monthly series (`mOf`) and the
`PROXY_MAP` (`prx`).  When neither the ticker nor any proxy has
`MIN_MONTHS` points, it does NOT raise: it returns the ticker with the
`"데이터없음"` marker and a `none` momentum tuple. -/
def resolve_with_proxy (mOf : String → List ℚ) (prx : String → List String)
    (t : String) : String × String × Option (ℚ × ℚ × ℚ × ℚ × ℚ) :=
  if MIN_MONTHS ≤ (mOf t).length then (t, "원본", some (snapshot_core (mOf t)))
  else
    match tryProxies mOf (prx t) with
    | some (p, snap) => (p, "대체[" ++ p ++ "]", some snap)
    | none => (t, "데이터없음", none)

/-! ## Decision rules -/

/-- The decision rule of `decide_allocation` (lines 79–86 of
`dualmomentom.py`): if SPY 12M > BIL 12M, pick whichever of SPY/EFA has the
higher 12M return; otherwise AGG. -/
def decide_allocation_rule (rSpy rEfa rBil : ℚ) : String :=
  if rBil < rSpy then (if rEfa ≤ rSpy then "SPY" else "EFA") else "AGG"

/-- `pandas.Series.idxmax` over a list of (code, return): first entry
attaining the maximum. -/
def idxmaxQ : List (String × ℚ) → Option (String × ℚ)
  | [] => none
  | x :: xs => some (xs.foldl (fun b y => if b.2 < y.2 then y else b) x)

/-- `pick_asset` (lines 58–71 of `dualm.py`) at one evaluation date:
best equity by 12M return; in mode `"bond"` hold it iff its return exceeds
the bond 12M return, in mode `"zero"` iff its return exceeds 0; otherwise
hold the bond. -/
def pick_asset (equities : List (String × ℚ)) (bondCode : String)
    (bondRet : ℚ) (mode : String) : Option String :=
  (idxmaxQ equities).map (fun best =>
    if mode = "bond" then (if bondRet < best.2 then best.1 else bondCode)
    else (if 0 < best.2 then best.1 else bondCode))

/-- `idxmax` over a column that may contain NaN (`none`): NaN entries are
skipped; first entry attaining the maximum of the present values. -/
def idxmaxStep (acc : Option (String × ℚ)) (row : String × Option ℚ) :
    Option (String × ℚ) :=
  match row.2, acc with
  | none, _ => acc
  | some s, none => some (row.1, s)
  | some s, some b => if b.2 < s then some (row.1, s) else some b

def idxmaxOpt (rows : List (String × Option ℚ)) : Option String :=
  (rows.foldl idxmaxStep none).map Prod.fst

/-- `decision_banner` (lines 234–249 of `vaa_efa.py`), applied to the
offense (공격자산) and defense (안전자산) rows with their momentum scores
(`none` = the "데이터없음" NaN score): offense iff every offense score is
strictly positive (`(x > 0).fillna(False)`), then the row attaining the
maximum score of the chosen group wins. -/
def decision_banner (aggr safe : List (String × Option ℚ)) : Option String :=
  if aggr.all (fun r => match r.2 with | some s => decide (0 < s) | none => false) then
    idxmaxOpt aggr
  else idxmaxOpt safe

/-! ## Basic lemmas -/

@[simp] lemma roundHE_zero : roundHE 0 = 0 := by
  norm_num [roundHE]

@[simp] lemma mkLine_code (T : ℚ) (tw : List (String × ℚ)) (f : ℚ)
    (c : String) (q : ℤ) (p : ℚ) : (mkLine T tw f c q p).code = c := rfl

@[simp] lemma mkLine_qty (T : ℚ) (tw : List (String × ℚ)) (f : ℚ)
    (c : String) (q : ℤ) (p : ℚ) : (mkLine T tw f c q p).qty = q := rfl

@[simp] lemma mkLine_price (T : ℚ) (tw : List (String × ℚ)) (f : ℚ)
    (c : String) (q : ℤ) (p : ℚ) : (mkLine T tw f c q p).price = p := rfl

@[simp] lemma mkLine_weight (T : ℚ) (tw : List (String × ℚ)) (f : ℚ)
    (c : String) (q : ℤ) (p : ℚ) :
    (mkLine T tw f c q p).weight = weightOf tw c := rfl

@[simp] lemma mkLine_targetValue (T : ℚ) (tw : List (String × ℚ)) (f : ℚ)
    (c : String) (q : ℤ) (p : ℚ) :
    (mkLine T tw f c q p).targetValue = T * weightOf tw c := rfl

@[simp] lemma mkLine_targetQty (T : ℚ) (tw : List (String × ℚ)) (f : ℚ)
    (c : String) (q : ℤ) (p : ℚ) :
    (mkLine T tw f c q p).targetQty = ⌊T * weightOf tw c / p⌋ := rfl

@[simp] lemma mkLine_tradeQty (T : ℚ) (tw : List (String × ℚ)) (f : ℚ)
    (c : String) (q : ℤ) (p : ℚ) :
    (mkLine T tw f c q p).tradeQty = ⌊T * weightOf tw c / p⌋ - q := rfl

/-- `목표수량 = floor(목표가치 / 현재가)` holds on every pre-greedy line. -/
lemma line_targetQty_floor {holdings : List (String × ℤ)}
    {pm tw : List (String × ℚ)} {f : ℚ} {l : Line}
    (hl : l ∈ linesOf holdings pm tw f) :
    l.targetQty = ⌊l.targetValue / l.price⌋ := by
  obtain ⟨h, _, rfl⟩ := List.mem_map.mp hl
  simp

/-- `거래수량 = 목표수량 − 보유수량` on every pre-greedy line. -/
lemma line_trade_eq {holdings : List (String × ℤ)}
    {pm tw : List (String × ℚ)} {f : ℚ} {l : Line}
    (hl : l ∈ linesOf holdings pm tw f) :
    l.tradeQty = l.targetQty - l.qty := by
  obtain ⟨h, _, rfl⟩ := List.mem_map.mp hl
  simp

/-- A pre-greedy line with zero trade quantity has zero fees and amounts. -/
lemma mkLine_trade_zero (T : ℚ) (tw : List (String × ℚ)) (f : ℚ)
    (c : String) (q : ℤ) (p : ℚ)
    (h : (mkLine T tw f c q p).tradeQty = 0) :
    (mkLine T tw f c q p).buyFee = 0 ∧ (mkLine T tw f c q p).sellFee = 0 ∧
    (mkLine T tw f c q p).buyAmt = 0 ∧ (mkLine T tw f c q p).sellAmt = 0 ∧
    (mkLine T tw f c q p).netAmt = 0 := by
  have h' : ⌊T * weightOf tw c / p⌋ - q = 0 := h
  simp only [mkLine, h']
  norm_num

/-! ### Output ordering (`sort_values`) is a permutation -/

lemma insertLine_perm (a : Line) (l : List Line) :
    (insertLine a l).Perm (a :: l) := by
  induction l with
  | nil => simp [insertLine]
  | cons b bs ih =>
    simp only [insertLine]
    split
    · exact List.Perm.refl _
    · exact (ih.cons b).trans (List.Perm.swap a b bs)

lemma sortLines_perm (l : List Line) : (sortLines l).Perm l := by
  induction l with
  | nil => simp [sortLines]
  | cons a ls ih =>
    exact (insertLine_perm a (sortLines ls)).trans (ih.cons a)

lemma mem_sortLines {l : Line} {ls : List Line} :
    l ∈ sortLines ls ↔ l ∈ ls := (sortLines_perm ls).mem_iff

lemma insertIdxDesc_perm (gap : ℕ → ℚ) (i : ℕ) (l : List ℕ) :
    (insertIdxDesc gap i l).Perm (i :: l) := by
  induction l with
  | nil => simp [insertIdxDesc]
  | cons j js ih =>
    simp only [insertIdxDesc]
    split
    · exact List.Perm.refl _
    · exact (ih.cons j).trans (List.Perm.swap i j js)

lemma sortIdxDesc_perm (gap : ℕ → ℚ) (l : List ℕ) :
    (sortIdxDesc gap l).Perm l := by
  induction l with
  | nil => simp [sortIdxDesc]
  | cons i is ih =>
    exact (insertIdxDesc_perm gap i (sortIdxDesc gap is)).trans (ih.cons i)

lemma mem_greedyOrder {lines : List Line} {j : ℕ} (hj : j ∈ greedyOrder lines) :
    j < lines.length := by
  have := (sortIdxDesc_perm (fun i => gapPerShare (lines.getD i dflLine))
    (List.range lines.length)).mem_iff.mp hj
  simpa using this

/-! ### The post-sweep table -/

/-- Fields untouched by the sweep and the amount recomputation. -/
def originEq (a b : Line) : Prop :=
  a.code = b.code ∧ a.qty = b.qty ∧ a.price = b.price ∧ a.weight = b.weight ∧
  a.targetValue = b.targetValue ∧ a.targetQty = b.targetQty ∧
  a.buyFee = b.buyFee ∧ a.sellFee = b.sellFee

lemma originEq_refl (a : Line) : originEq a a := by
  simp [originEq]

lemma originEq_sweep (m : ℕ) (l : Line) :
    originEq (recomputeAmts (bumpLine m l)) l := by
  simp [originEq, recomputeAmts, bumpLine]

lemma applySweep_length (res : List (ℕ × ℕ)) :
    ∀ (k : ℕ) (ls : List Line), (applySweep res k ls).length = ls.length := by
  intro k ls
  induction ls generalizing k with
  | nil => simp [applySweep]
  | cons l ls ih => simp [applySweep, ih]

lemma applySweep_getD (res : List (ℕ × ℕ)) :
    ∀ (k j : ℕ) (ls : List Line), j < ls.length →
      (applySweep res k ls).getD j dflLine =
        recomputeAmts (bumpLine (extraOf res (k + j)) (ls.getD j dflLine)) := by
  intro k j ls
  induction ls generalizing k j with
  | nil => simp
  | cons l ls ih =>
    intro hj
    cases j with
    | zero => simp [applySweep]
    | succ j =>
      have hj' : j < ls.length := by simpa using hj
      have hk : k + 1 + j = k + (j + 1) := by omega
      have := ih (k + 1) j hj'
      simp only [applySweep, List.getD_cons_succ]
      rw [this, hk]

lemma mem_applySweep {res : List (ℕ × ℕ)} :
    ∀ {k : ℕ} {ls : List Line} {l' : Line}, l' ∈ applySweep res k ls →
      ∃ l ∈ ls, ∃ m, l' = recomputeAmts (bumpLine m l) := by
  intro k ls
  induction ls generalizing k with
  | nil => intro l' h; simp [applySweep] at h
  | cons l ls ih =>
    intro l' h
    simp only [applySweep, List.mem_cons] at h
    rcases h with h | h
    · exact ⟨l, by simp, extraOf res k, h⟩
    · obtain ⟨a, ha, m, hm⟩ := ih h
      exact ⟨a, by simp [ha], m, hm⟩

lemma applySweep_mem {res : List (ℕ × ℕ)} :
    ∀ (k : ℕ) {ls : List Line} {l : Line}, l ∈ ls →
      ∃ l' ∈ applySweep res k ls, ∃ m, l' = recomputeAmts (bumpLine m l) := by
  intro k ls
  induction ls generalizing k with
  | nil => intro l h; simp at h
  | cons a ls ih =>
    intro l h
    rcases List.mem_cons.mp h with rfl | h
    · exact ⟨recomputeAmts (bumpLine (extraOf res k) l), by simp [applySweep],
        extraOf res k, rfl⟩
    · obtain ⟨l', hl', m, hm⟩ := ih (k + 1) h
      exact ⟨l', by simp [applySweep, hl'], m, hm⟩

lemma applySweep_map_code (res : List (ℕ × ℕ)) :
    ∀ (k : ℕ) (ls : List Line),
      (applySweep res k ls).map Line.code = ls.map Line.code := by
  intro k ls
  induction ls generalizing k with
  | nil => simp [applySweep]
  | cons l ls ih =>
    simp only [applySweep, List.map_cons, ih]
    congr 1

/-! ### Greedy sweep loop invariants -/

/-- With non-negative prices on the sweep order, the leftover cash never
increases. -/
lemma greedyRun_le (pAt : ℕ → ℚ) :
    ∀ (fuel : ℕ) (order : List ℕ) (c : ℚ) (res : List (ℕ × ℕ)) (cf : ℚ),
      (∀ j ∈ order, 0 ≤ pAt j) →
      greedyRun pAt fuel order c = some (res, cf) → cf ≤ c := by
  intro fuel
  induction fuel with
  | zero =>
    intro order c res cf hpos h
    cases order with
    | nil =>
      simp only [greedyRun, Option.some.injEq, Prod.mk.injEq] at h
      exact h.2 ▸ le_refl c
    | cons i rest => simp [greedyRun] at h
  | succ fuel ih =>
    intro order c res cf hpos h
    cases order with
    | nil =>
      simp only [greedyRun, Option.some.injEq, Prod.mk.injEq] at h
      exact h.2 ▸ le_refl c
    | cons i rest =>
      simp only [greedyRun] at h
      by_cases hp : pAt i ≤ c
      · rw [if_pos hp] at h
        cases hrec : greedyRun pAt fuel (i :: rest) (c - pAt i) with
        | none => rw [hrec] at h; simp at h
        | some pr =>
          obtain ⟨res', cf'⟩ := pr
          cases res' with
          | nil => rw [hrec] at h; simp at h
          | cons hd tl =>
            obtain ⟨j, n⟩ := hd
            rw [hrec] at h
            simp only [Option.some.injEq, Prod.mk.injEq] at h
            have hle := ih (i :: rest) (c - pAt i) ((j, n) :: tl) cf' hpos hrec
            have hpi : 0 ≤ pAt i := hpos i (by simp)
            have : cf' ≤ c := by linarith
            exact h.2 ▸ this
      · rw [if_neg hp] at h
        cases hrec : greedyRun pAt fuel rest c with
        | none => rw [hrec] at h; simp at h
        | some pr =>
          obtain ⟨res', cf'⟩ := pr
          rw [hrec] at h
          simp only [Option.some.injEq, Prod.mk.injEq] at h
          have hle := ih rest c res' cf'
            (fun j hj => hpos j (by simp [hj])) hrec
          exact h.2 ▸ hle

/-- The leftover cash never becomes negative: whenever a price is
subtracted, it was at most the current leftover. -/
lemma greedyRun_nonneg (pAt : ℕ → ℚ) :
    ∀ (fuel : ℕ) (order : List ℕ) (c : ℚ) (res : List (ℕ × ℕ)) (cf : ℚ),
      0 ≤ c → greedyRun pAt fuel order c = some (res, cf) → 0 ≤ cf := by
  intro fuel
  induction fuel with
  | zero =>
    intro order c res cf hc h
    cases order with
    | nil =>
      simp only [greedyRun, Option.some.injEq, Prod.mk.injEq] at h
      exact h.2 ▸ hc
    | cons i rest => simp [greedyRun] at h
  | succ fuel ih =>
    intro order c res cf hc h
    cases order with
    | nil =>
      simp only [greedyRun, Option.some.injEq, Prod.mk.injEq] at h
      exact h.2 ▸ hc
    | cons i rest =>
      simp only [greedyRun] at h
      by_cases hp : pAt i ≤ c
      · rw [if_pos hp] at h
        cases hrec : greedyRun pAt fuel (i :: rest) (c - pAt i) with
        | none => rw [hrec] at h; simp at h
        | some pr =>
          obtain ⟨res', cf'⟩ := pr
          cases res' with
          | nil => rw [hrec] at h; simp at h
          | cons hd tl =>
            obtain ⟨j, n⟩ := hd
            rw [hrec] at h
            simp only [Option.some.injEq, Prod.mk.injEq] at h
            exact h.2 ▸ ih (i :: rest) (c - pAt i) ((j, n) :: tl) cf'
              (by linarith) hrec
      · rw [if_neg hp] at h
        cases hrec : greedyRun pAt fuel rest c with
        | none => rw [hrec] at h; simp at h
        | some pr =>
          obtain ⟨res', cf'⟩ := pr
          rw [hrec] at h
          simp only [Option.some.injEq, Prod.mk.injEq] at h
          exact h.2 ▸ ih rest c res' cf' hc hrec

/-- When the loop finishes, the final leftover is below the price of every
instrument of the sweep order: a position is only left behind when the
leftover cannot afford it, and the leftover never increases afterwards. -/
lemma greedyRun_lt (pAt : ℕ → ℚ) :
    ∀ (fuel : ℕ) (order : List ℕ) (c : ℚ) (res : List (ℕ × ℕ)) (cf : ℚ),
      (∀ j ∈ order, 0 ≤ pAt j) →
      greedyRun pAt fuel order c = some (res, cf) →
      ∀ j ∈ order, cf < pAt j := by
  intro fuel
  induction fuel with
  | zero =>
    intro order c res cf hpos h
    cases order with
    | nil => intro j hj; simp at hj
    | cons i rest => simp [greedyRun] at h
  | succ fuel ih =>
    intro order c res cf hpos h
    cases order with
    | nil => intro j hj; simp at hj
    | cons i rest =>
      simp only [greedyRun] at h
      by_cases hp : pAt i ≤ c
      · rw [if_pos hp] at h
        cases hrec : greedyRun pAt fuel (i :: rest) (c - pAt i) with
        | none => rw [hrec] at h; simp at h
        | some pr =>
          obtain ⟨res', cf'⟩ := pr
          cases res' with
          | nil => rw [hrec] at h; simp at h
          | cons hd tl =>
            obtain ⟨j, n⟩ := hd
            rw [hrec] at h
            simp only [Option.some.injEq, Prod.mk.injEq] at h
            exact h.2 ▸ ih (i :: rest) (c - pAt i) ((j, n) :: tl) cf' hpos hrec
      · rw [if_neg hp] at h
        cases hrec : greedyRun pAt fuel rest c with
        | none => rw [hrec] at h; simp at h
        | some pr =>
          obtain ⟨res', cf'⟩ := pr
          rw [hrec] at h
          simp only [Option.some.injEq, Prod.mk.injEq] at h
          have hrest : ∀ j ∈ rest, cf' < pAt j :=
            ih rest c res' cf' (fun j hj => hpos j (by simp [hj])) hrec
          have hle : cf' ≤ c :=
            greedyRun_le pAt fuel rest c res' cf'
              (fun j hj => hpos j (by simp [hj])) hrec
          intro j hj
          rcases List.mem_cons.mp hj with rfl | hj
          · have : c < pAt j := not_le.mp hp
            exact h.2 ▸ lt_of_le_of_lt hle this
          · exact h.2 ▸ hrest j hj

/-- The sweep result covers exactly the positions of the order, in order:
the loop ends only by exhausting the list. -/
lemma greedyRun_shape (pAt : ℕ → ℚ) :
    ∀ (fuel : ℕ) (order : List ℕ) (c : ℚ) (res : List (ℕ × ℕ)) (cf : ℚ),
      greedyRun pAt fuel order c = some (res, cf) →
      res.map Prod.fst = order := by
  intro fuel
  induction fuel with
  | zero =>
    intro order c res cf h
    cases order with
    | nil =>
      simp only [greedyRun, Option.some.injEq, Prod.mk.injEq] at h
      rw [← h.1]
      simp
    | cons i rest => simp [greedyRun] at h
  | succ fuel ih =>
    intro order c res cf h
    cases order with
    | nil =>
      simp only [greedyRun, Option.some.injEq, Prod.mk.injEq] at h
      rw [← h.1]
      simp
    | cons i rest =>
      simp only [greedyRun] at h
      by_cases hp : pAt i ≤ c
      · rw [if_pos hp] at h
        cases hrec : greedyRun pAt fuel (i :: rest) (c - pAt i) with
        | none => rw [hrec] at h; simp at h
        | some pr =>
          obtain ⟨res', cf'⟩ := pr
          cases res' with
          | nil => rw [hrec] at h; simp at h
          | cons hd tl =>
            obtain ⟨j, n⟩ := hd
            rw [hrec] at h
            simp only [Option.some.injEq, Prod.mk.injEq] at h
            have := ih (i :: rest) (c - pAt i) ((j, n) :: tl) cf' hrec
            rw [← h.1]
            simpa using this
      · rw [if_neg hp] at h
        cases hrec : greedyRun pAt fuel rest c with
        | none => rw [hrec] at h; simp at h
        | some pr =>
          obtain ⟨res', cf'⟩ := pr
          rw [hrec] at h
          simp only [Option.some.injEq, Prod.mk.injEq] at h
          have := ih rest c res' cf' hrec
          rw [← h.1]
          simpa using this

/-- Inner termination argument: with a positive price at the head, the
number of affordable buys at the head is bounded, so some fuel suffices. -/
lemma greedyRun_isSome_cons (pAt : ℕ → ℚ) (i : ℕ) (rest : List ℕ)
    (hp : 0 < pAt i)
    (ihrest : ∀ c : ℚ, ∃ f : ℕ, (greedyRun pAt f rest c).isSome) :
    ∀ (n : ℕ) (c : ℚ), c < n * pAt i →
      ∃ f : ℕ, (greedyRun pAt f (i :: rest) c).isSome := by
  intro n
  induction n with
  | zero =>
    intro c hc
    have hcp : ¬ pAt i ≤ c := by
      push_neg
      calc c < 0 * pAt i := hc
        _ = 0 := by ring
        _ < pAt i := hp
    obtain ⟨f, hf⟩ := ihrest c
    refine ⟨f + 1, ?_⟩
    rw [Option.isSome_iff_exists] at hf
    obtain ⟨pr, hpr⟩ := hf
    obtain ⟨res, cf⟩ := pr
    simp [greedyRun, if_neg hcp, hpr]
  | succ n ihn =>
    intro c hc
    by_cases hcp : pAt i ≤ c
    · have hc' : c - pAt i < n * pAt i := by
        have : (↑(n + 1) : ℚ) * pAt i = n * pAt i + pAt i := by
          push_cast
          ring
        linarith [hc, this ▸ hc]
      obtain ⟨f, hf⟩ := ihn (c - pAt i) hc'
      rw [Option.isSome_iff_exists] at hf
      obtain ⟨pr, hpr⟩ := hf
      obtain ⟨res, cf⟩ := pr
      have hshape := greedyRun_shape pAt f (i :: rest) (c - pAt i) res cf hpr
      cases res with
      | nil => simp at hshape
      | cons hd tl =>
        obtain ⟨j, m⟩ := hd
        refine ⟨f + 1, ?_⟩
        simp [greedyRun, if_pos hcp, hpr]
    · obtain ⟨f, hf⟩ := ihrest c
      rw [Option.isSome_iff_exists] at hf
      obtain ⟨pr, hpr⟩ := hf
      obtain ⟨res, cf⟩ := pr
      refine ⟨f + 1, ?_⟩
      simp [greedyRun, if_neg hcp, hpr]

/-- Termination of the sweep: with strictly positive prices along the
order, some fuel makes the loop finish, whatever the starting cash. -/
lemma greedyRun_isSome (pAt : ℕ → ℚ) :
    ∀ (order : List ℕ), (∀ j ∈ order, 0 < pAt j) →
      ∀ c : ℚ, ∃ f : ℕ, (greedyRun pAt f order c).isSome := by
  intro order
  induction order with
  | nil => intro _ c; exact ⟨0, by simp [greedyRun]⟩
  | cons i rest ih =>
    intro hpos c
    have hp : 0 < pAt i := hpos i (by simp)
    have ihrest := ih (fun j hj => hpos j (by simp [hj]))
    obtain ⟨n, hn⟩ := exists_nat_gt (c / pAt i)
    have hc : c < n * pAt i := by
      rw [div_lt_iff₀ hp] at hn
      exact hn
    exact greedyRun_isSome_cons pAt i rest hp ihrest n c hc

/-! ### Decomposing a successful `compute_rebalance` run -/

lemma compute_ok_cases {fuel : ℕ} {h : List (String × ℤ)}
    {pm tw : List (String × ℚ)} {f : ℚ} {g : Bool}
    {out : List Line} {s : Summary}
    (hc : compute_rebalance fuel h pm tw f g = some (.ok (out, s))) :
    ∃ lines2 : List Line,
      out = sortLines lines2 ∧
      s = mkSummary (totalBeforeOf h pm) (linesOf h pm tw f) lines2 ∧
      (lines2 = linesOf h pm tw f ∨
        ∃ res cf,
          lines2 = applySweep res 0 (linesOf h pm tw f) ∧
          greedyRun (fun i => ((linesOf h pm tw f).getD i dflLine).price) fuel
            (greedyOrder (linesOf h pm tw f))
            (sumSell (linesOf h pm tw f) - sumBuy (linesOf h pm tw f)) =
              some (res, cf) ∧
          0 < sumSell (linesOf h pm tw f) - sumBuy (linesOf h pm tw f)) := by
  unfold compute_rebalance at hc
  cases hfind : h.find? (fun x => (lookupPrice pm x.1).isNone) with
  | some y => rw [hfind] at hc; simp at hc
  | none =>
    rw [hfind] at hc
    by_cases hw : 1/1000000 < |sumWeights tw - 1|
    · rw [if_pos hw] at hc
      simp at hc
    · rw [if_neg hw] at hc
      simp only at hc
      by_cases hg : (g = true) ∧
          0 < sumSell (linesOf h pm tw f) - sumBuy (linesOf h pm tw f)
      · rw [if_pos hg] at hc
        cases hgc : greedy_cash_spend fuel (linesOf h pm tw f)
            (sumSell (linesOf h pm tw f) - sumBuy (linesOf h pm tw f)) with
        | none => rw [hgc] at hc; simp at hc
        | some lines2 =>
          rw [hgc] at hc
          simp only [Option.some.injEq, Except.ok.injEq, Prod.mk.injEq] at hc
          refine ⟨lines2, hc.1.symm, hc.2.symm, Or.inr ?_⟩
          unfold greedy_cash_spend at hgc
          rw [if_neg (not_le.mpr hg.2)] at hgc
          cases hrun : greedyRun
              (fun i => ((linesOf h pm tw f).getD i dflLine).price) fuel
              (greedyOrder (linesOf h pm tw f))
              (sumSell (linesOf h pm tw f) - sumBuy (linesOf h pm tw f)) with
          | none => rw [hrun] at hgc; simp at hgc
          | some pr =>
            obtain ⟨res, cf⟩ := pr
            rw [hrun] at hgc
            simp only [Option.some.injEq] at hgc
            exact ⟨res, cf, hgc.symm, rfl, hg.2⟩
      · rw [if_neg hg] at hc
        simp only [Option.some.injEq, Except.ok.injEq, Prod.mk.injEq] at hc
        exact ⟨linesOf h pm tw f, hc.1.symm, hc.2.symm, Or.inl rfl⟩

/-- Every output line of a successful run agrees, on the fields the sweep
does not touch, with a pre-greedy line. -/
lemma out_origin {fuel : ℕ} {h : List (String × ℤ)}
    {pm tw : List (String × ℚ)} {f : ℚ} {g : Bool}
    {out : List Line} {s : Summary}
    (hc : compute_rebalance fuel h pm tw f g = some (.ok (out, s))) :
    ∀ l' ∈ out, ∃ l ∈ linesOf h pm tw f, originEq l' l := by
  obtain ⟨lines2, rfl, -, hcase⟩ := compute_ok_cases hc
  intro l' hl'
  have hl2 : l' ∈ lines2 := mem_sortLines.mp hl'
  rcases hcase with rfl | ⟨res, cf, rfl, -, -⟩
  · exact ⟨l', hl2, originEq_refl l'⟩
  · obtain ⟨l, hl, m, rfl⟩ := mem_applySweep hl2
    exact ⟨l, hl, originEq_sweep m l⟩

/-- Conversely every pre-greedy line has an image among the output lines. -/
lemma origin_out {fuel : ℕ} {h : List (String × ℤ)}
    {pm tw : List (String × ℚ)} {f : ℚ} {g : Bool}
    {out : List Line} {s : Summary}
    (hc : compute_rebalance fuel h pm tw f g = some (.ok (out, s))) :
    ∀ l ∈ linesOf h pm tw f, ∃ l' ∈ out, originEq l' l := by
  obtain ⟨lines2, rfl, -, hcase⟩ := compute_ok_cases hc
  intro l hl
  rcases hcase with rfl | ⟨res, cf, rfl, -, -⟩
  · exact ⟨l, mem_sortLines.mpr hl, originEq_refl l⟩
  · obtain ⟨l', hl', m, rfl⟩ := applySweep_mem 0 hl
    exact ⟨recomputeAmts (bumpLine m l), mem_sortLines.mpr hl',
      originEq_sweep m l⟩

/-- The output codes are a permutation of the holdings codes. -/
lemma out_codes_perm {fuel : ℕ} {h : List (String × ℤ)}
    {pm tw : List (String × ℚ)} {f : ℚ} {g : Bool}
    {out : List Line} {s : Summary}
    (hc : compute_rebalance fuel h pm tw f g = some (.ok (out, s))) :
    (out.map Line.code).Perm (h.map Prod.fst) := by
  obtain ⟨lines2, rfl, -, hcase⟩ := compute_ok_cases hc
  have hcodes : lines2.map Line.code = h.map Prod.fst := by
    have hpre : (linesOf h pm tw f).map Line.code = h.map Prod.fst := by
      simp [linesOf, List.map_map, Function.comp]
    rcases hcase with rfl | ⟨res, cf, rfl, -, -⟩
    · exact hpre
    · rw [applySweep_map_code]
      exact hpre
  exact hcodes ▸ (sortLines_perm lines2).map Line.code

/-! ### Floor bounds -/

lemma floor_mul_le {tv p : ℚ} (hp : 0 < p) : ((⌊tv / p⌋ : ℚ)) * p ≤ tv := by
  calc ((⌊tv / p⌋ : ℚ)) * p ≤ (tv / p) * p :=
        mul_le_mul_of_nonneg_right (Int.floor_le _) hp.le
    _ = tv := div_mul_cancel₀ tv hp.ne'

lemma lt_floor_succ_mul {tv p : ℚ} (hp : 0 < p) :
    tv < ((⌊tv / p⌋ : ℚ) + 1) * p := by
  calc tv = (tv / p) * p := (div_mul_cancel₀ tv hp.ne').symm
    _ < ((⌊tv / p⌋ : ℚ) + 1) * p :=
        mul_lt_mul_of_pos_right (Int.lt_floor_add_one _) hp

lemma alloc_qty_floor {priceOf : String → ℚ}
    {assets : List (String × String × ℚ)} {total : ℤ} {r : AllocRow}
    (hr : r ∈ build_allocation priceOf assets total) :
    r.qty = ⌊r.targetAmt / r.price⌋ := by
  obtain ⟨a, -, rfl⟩ := List.mem_map.mp hr
  rfl

/-! ## Claim theorems -/

/-- **C1.** For every instrument with strictly positive price, both the
rebalance calculator (`compute_rebalance`, 목표수량 column) and the
k-allweather allocator (`build_allocation`, 보유수량 column) set the target
quantity to `floor(target_value / price)` — floor, never round or ceil —
hence `target_quantity * price ≤ target_value` and
`(target_quantity + 1) * price > target_value`. -/
theorem C1_floor_quantization :
    (∀ (fuel : ℕ) (h : List (String × ℤ)) (pm tw : List (String × ℚ))
        (f : ℚ) (g : Bool) (k : ℕ),
      0 < (lineAt (compute_rebalance fuel h pm tw f g) k).price →
      (lineAt (compute_rebalance fuel h pm tw f g) k).targetQty =
          ⌊(lineAt (compute_rebalance fuel h pm tw f g) k).targetValue /
            (lineAt (compute_rebalance fuel h pm tw f g) k).price⌋ ∧
        ((lineAt (compute_rebalance fuel h pm tw f g) k).targetQty : ℚ) *
            (lineAt (compute_rebalance fuel h pm tw f g) k).price ≤
          (lineAt (compute_rebalance fuel h pm tw f g) k).targetValue ∧
        (lineAt (compute_rebalance fuel h pm tw f g) k).targetValue <
          (((lineAt (compute_rebalance fuel h pm tw f g) k).targetQty : ℚ) + 1) *
            (lineAt (compute_rebalance fuel h pm tw f g) k).price)
    ∧ (∀ (priceOf : String → ℚ) (assets : List (String × String × ℚ))
        (total : ℤ) (k : ℕ),
      0 < ((build_allocation priceOf assets total).getD k dflAlloc).price →
      ((build_allocation priceOf assets total).getD k dflAlloc).qty =
          ⌊((build_allocation priceOf assets total).getD k dflAlloc).targetAmt /
            ((build_allocation priceOf assets total).getD k dflAlloc).price⌋ ∧
        (((build_allocation priceOf assets total).getD k dflAlloc).qty : ℚ) *
            ((build_allocation priceOf assets total).getD k dflAlloc).price ≤
          ((build_allocation priceOf assets total).getD k dflAlloc).targetAmt ∧
        ((build_allocation priceOf assets total).getD k dflAlloc).targetAmt <
          ((((build_allocation priceOf assets total).getD k dflAlloc).qty : ℚ) + 1) *
            ((build_allocation priceOf assets total).getD k dflAlloc).price) := by
  constructor
  · intro fuel h pm tw f g k hp
    cases hR : compute_rebalance fuel h pm tw f g with
    | none => rw [hR] at hp; simp [lineAt, linesOut, dflLine] at hp
    | some e =>
      cases e with
      | error m => rw [hR] at hp; simp [lineAt, linesOut, dflLine] at hp
      | ok p =>
        obtain ⟨out, s⟩ := p
        rw [hR] at hp
        simp only [lineAt, linesOut] at hp ⊢
        by_cases hk : k < out.length
        · have hmem : out.getD k dflLine ∈ out := by
            rw [List.getD_eq_getElem _ _ hk]
            exact List.getElem_mem hk
          obtain ⟨l, hl, heq⟩ := out_origin hR _ hmem
          obtain ⟨-, -, hpr, -, htv, htq, -, -⟩ := heq
          have hfl := line_targetQty_floor hl
          rw [hpr] at hp
          rw [htq, htv, hpr]
          exact ⟨hfl, by rw [hfl]; exact floor_mul_le hp, by
            rw [hfl]; exact lt_floor_succ_mul hp⟩
        · rw [List.getD_eq_default _ _ (not_lt.mp hk)] at hp
          simp [dflLine] at hp
  · intro priceOf assets total k hp
    by_cases hk : k < (build_allocation priceOf assets total).length
    · have hmem : (build_allocation priceOf assets total).getD k dflAlloc ∈
          build_allocation priceOf assets total := by
        rw [List.getD_eq_getElem _ _ hk]
        exact List.getElem_mem hk
      have hfl := alloc_qty_floor hmem
      exact ⟨hfl, by rw [hfl]; exact floor_mul_le hp, by
        rw [hfl]; exact lt_floor_succ_mul hp⟩
    · rw [List.getD_eq_default _ _ (not_lt.mp hk)] at hp
      simp [dflAlloc] at hp

/-- Witness for C1 at a concrete run (one holding of 10 shares at price 100,
weight 1, no fee) and a concrete k-allweather row (total 1000, 비율 1/2,
price 50). -/
theorem C1_floor_quantization_witness :
    (0 < (lineAt (compute_rebalance 20 [("X", 10)] [("X", 100)] [("X", 1)] 0 true) 0).price ∧
      ((lineAt (compute_rebalance 20 [("X", 10)] [("X", 100)] [("X", 1)] 0 true) 0).targetQty =
          ⌊(lineAt (compute_rebalance 20 [("X", 10)] [("X", 100)] [("X", 1)] 0 true) 0).targetValue /
            (lineAt (compute_rebalance 20 [("X", 10)] [("X", 100)] [("X", 1)] 0 true) 0).price⌋ ∧
        ((lineAt (compute_rebalance 20 [("X", 10)] [("X", 100)] [("X", 1)] 0 true) 0).targetQty : ℚ) *
            (lineAt (compute_rebalance 20 [("X", 10)] [("X", 100)] [("X", 1)] 0 true) 0).price ≤
          (lineAt (compute_rebalance 20 [("X", 10)] [("X", 100)] [("X", 1)] 0 true) 0).targetValue ∧
        (lineAt (compute_rebalance 20 [("X", 10)] [("X", 100)] [("X", 1)] 0 true) 0).targetValue <
          (((lineAt (compute_rebalance 20 [("X", 10)] [("X", 100)] [("X", 1)] 0 true) 0).targetQty : ℚ) + 1) *
            (lineAt (compute_rebalance 20 [("X", 10)] [("X", 100)] [("X", 1)] 0 true) 0).price)) ∧
    (0 < ((build_allocation (fun _ => 50) [("N", "C", 1/2)] 1000).getD 0 dflAlloc).price ∧
      (((build_allocation (fun _ => 50) [("N", "C", 1/2)] 1000).getD 0 dflAlloc).qty =
          ⌊((build_allocation (fun _ => 50) [("N", "C", 1/2)] 1000).getD 0 dflAlloc).targetAmt /
            ((build_allocation (fun _ => 50) [("N", "C", 1/2)] 1000).getD 0 dflAlloc).price⌋ ∧
        (((build_allocation (fun _ => 50) [("N", "C", 1/2)] 1000).getD 0 dflAlloc).qty : ℚ) *
            ((build_allocation (fun _ => 50) [("N", "C", 1/2)] 1000).getD 0 dflAlloc).price ≤
          ((build_allocation (fun _ => 50) [("N", "C", 1/2)] 1000).getD 0 dflAlloc).targetAmt ∧
        ((build_allocation (fun _ => 50) [("N", "C", 1/2)] 1000).getD 0 dflAlloc).targetAmt <
          ((((build_allocation (fun _ => 50) [("N", "C", 1/2)] 1000).getD 0 dflAlloc).qty : ℚ) + 1) *
            ((build_allocation (fun _ => 50) [("N", "C", 1/2)] 1000).getD 0 dflAlloc).price)) :=
  ⟨⟨by with_unfolding_all decide, C1_floor_quantization.1 20 [("X", 10)] [("X", 100)] [("X", 1)] 0 true 0 (by with_unfolding_all decide)⟩,
   ⟨by with_unfolding_all decide, C1_floor_quantization.2 (fun _ => 50) [("N", "C", 1/2)] 1000 0 (by with_unfolding_all decide)⟩⟩

/-- **C2.** During the residual-cash greedy sweep (`greedy_cash_spend`'s
while loop, `greedyRun`), when every price along the sweep order is
strictly positive and the starting leftover cash is positive, the leftover
cash never increases (this theorem holds for every start state, hence for
every intermediate iteration state of the loop), it never becomes
negative, at termination it is smaller than the price of every instrument
of the sweep, and the sweep ends only by exhausting the list (the result
covers exactly the sweep order). -/
theorem C2_greedy_cash_invariants (pAt : ℕ → ℚ) (fuel : ℕ) (order : List ℕ)
    (c : ℚ) (res : List (ℕ × ℕ)) (cf : ℚ)
    (hpos : ∀ j ∈ order, 0 < pAt j) (hc : 0 < c)
    (hrun : greedyRun pAt fuel order c = some (res, cf)) :
    cf ≤ c ∧ 0 ≤ cf ∧ (∀ j ∈ order, cf < pAt j) ∧ res.map Prod.fst = order :=
  ⟨greedyRun_le pAt fuel order c res cf (fun j hj => (hpos j hj).le) hrun,
   greedyRun_nonneg pAt fuel order c res cf hc.le hrun,
   greedyRun_lt pAt fuel order c res cf (fun j hj => (hpos j hj).le) hrun,
   greedyRun_shape pAt fuel order c res cf hrun⟩

/-- Witness for C2: two instruments priced 7 and 3, starting cash 10; the
sweep buys one share of each and ends with leftover 0. -/
theorem C2_greedy_cash_invariants_witness :
    (∀ j ∈ [0, 1], 0 < (fun j => if j = 0 then (7 : ℚ) else 3) j) ∧
    (0 : ℚ) < 10 ∧
    greedyRun (fun j => if j = 0 then (7 : ℚ) else 3) 10 [0, 1] 10 =
      some ([(0, 1), (1, 1)], 0) ∧
    ((0 : ℚ) ≤ 10 ∧ 0 ≤ (0 : ℚ) ∧
      (∀ j ∈ [0, 1], (0 : ℚ) < (fun j => if j = 0 then (7 : ℚ) else 3) j) ∧
      ([(0, 1), (1, 1)] : List (ℕ × ℕ)).map Prod.fst = [0, 1]) :=
  ⟨by with_unfolding_all decide, by with_unfolding_all decide, by with_unfolding_all decide,
   C2_greedy_cash_invariants (fun j => if j = 0 then (7 : ℚ) else 3) 10
     [0, 1] 10 [(0, 1), (1, 1)] 0 (by with_unfolding_all decide) (by with_unfolding_all decide) (by with_unfolding_all decide)⟩

/-- **C10.** The greedy sweep terminates for every input with strictly
positive prices: some fuel makes the loop finish (both for the raw loop
`greedyRun` on an arbitrary sweep order and for `greedy_cash_spend` on a
table whose lines all have positive prices).  Positivity is needed: with a
zero price at the head and non-negative cash, the loop never terminates
(no fuel suffices). -/
theorem C10_greedy_termination :
    (∀ (pAt : ℕ → ℚ) (order : List ℕ) (c : ℚ),
      (∀ j ∈ order, 0 < pAt j) →
      ∃ (fuel : ℕ) (res : List (ℕ × ℕ)) (cf : ℚ),
        greedyRun pAt fuel order c = some (res, cf))
    ∧ (∀ (lines : List Line) (c : ℚ), (∀ l ∈ lines, 0 < l.price) →
      ∃ (fuel : ℕ) (out : List Line), greedy_cash_spend fuel lines c = some out)
    ∧ (∀ (c : ℚ) (fuel : ℕ), 0 ≤ c →
      greedyRun (fun _ => 0) fuel [0] c = none) := by
  refine ⟨?_, ?_, ?_⟩
  · intro pAt order c hpos
    obtain ⟨f, hf⟩ := greedyRun_isSome pAt order hpos c
    rw [Option.isSome_iff_exists] at hf
    obtain ⟨⟨res, cf⟩, hpr⟩ := hf
    exact ⟨f, res, cf, hpr⟩
  · intro lines c hpos
    by_cases hc0 : c ≤ 0
    · exact ⟨0, lines, by simp [greedy_cash_spend, hc0]⟩
    · have hordpos : ∀ j ∈ greedyOrder lines,
          0 < (fun i => (lines.getD i dflLine).price) j := by
        intro j hj
        have hjlt := mem_greedyOrder hj
        have : lines.getD j dflLine ∈ lines := by
          rw [List.getD_eq_getElem _ _ hjlt]
          exact List.getElem_mem hjlt
        exact hpos _ this
      obtain ⟨f, hf⟩ := greedyRun_isSome
        (fun i => (lines.getD i dflLine).price) (greedyOrder lines) hordpos c
      rw [Option.isSome_iff_exists] at hf
      obtain ⟨⟨res, cf⟩, hpr⟩ := hf
      refine ⟨f, applySweep res 0 lines, ?_⟩
      unfold greedy_cash_spend
      rw [if_neg hc0, hpr]
  · intro c fuel hc
    induction fuel with
    | zero => simp [greedyRun]
    | succ fuel ih =>
      simp only [greedyRun]
      rw [if_pos (by simpa using hc)]
      simp only [sub_zero]
      rw [ih]

/-- Witness for C10: termination at price 1 / cash 5, termination of the
full sweep on an empty table, and non-termination at price 0 / cash 0. -/
theorem C10_greedy_termination_witness :
    ((∀ j ∈ ([0] : List ℕ), (0 : ℚ) < (fun _ => (1 : ℚ)) j) ∧
      ∃ (fuel : ℕ) (res : List (ℕ × ℕ)) (cf : ℚ),
        greedyRun (fun _ => (1 : ℚ)) fuel [0] 5 = some (res, cf)) ∧
    ((∀ l ∈ ([] : List Line), 0 < l.price) ∧
      ∃ (fuel : ℕ) (out : List Line), greedy_cash_spend fuel [] 1 = some out) ∧
    ((0 : ℚ) ≤ 0 ∧ greedyRun (fun _ => (0 : ℚ)) 2 [0] 0 = none) :=
  ⟨⟨by with_unfolding_all decide, C10_greedy_termination.1 (fun _ => (1 : ℚ)) [0] 5 (by with_unfolding_all decide)⟩,
   ⟨by with_unfolding_all decide, C10_greedy_termination.2.1 [] 1 (by with_unfolding_all decide)⟩,
   ⟨by with_unfolding_all decide, C10_greedy_termination.2.2 0 2 (by with_unfolding_all decide)⟩⟩

/-! ### idxmax characterisation -/

lemma foldl_max_spec (xs : List (String × ℚ)) :
    ∀ x : String × ℚ,
      (xs.foldl (fun b y => if b.2 < y.2 then y else b) x) ∈ x :: xs ∧
      x.2 ≤ (xs.foldl (fun b y => if b.2 < y.2 then y else b) x).2 ∧
      ∀ y ∈ xs, y.2 ≤ (xs.foldl (fun b y => if b.2 < y.2 then y else b) x).2 := by
  induction xs with
  | nil => intro x; simp
  | cons z zs ih =>
    intro x
    by_cases hc : x.2 < z.2
    · simp only [List.foldl_cons, if_pos hc]
      obtain ⟨hmem, hlex, hall⟩ := ih z
      refine ⟨?_, hc.le.trans hlex, ?_⟩
      · rcases List.mem_cons.mp hmem with hm | hm
        · simp [hm]
        · simp [hm]
      · intro y hy
        rcases List.mem_cons.mp hy with rfl | hy
        · exact hlex
        · exact hall y hy
    · simp only [List.foldl_cons, if_neg hc]
      obtain ⟨hmem, hlex, hall⟩ := ih x
      refine ⟨?_, hlex, ?_⟩
      · rcases List.mem_cons.mp hmem with hm | hm
        · simp [hm]
        · simp [hm]
      · intro y hy
        rcases List.mem_cons.mp hy with rfl | hy
        · exact (not_lt.mp hc).trans hlex
        · exact hall y hy

/-- **C3 counterexample.** The claim says the dual-momentum decision falls
back to the defensive candidate exactly when the highest risk score does
not exceed the defensive score.  In `decide_allocation`
(`dualmomentom.py`) the absolute-momentum gate compares only SPY against
BIL: with SPY 12M = −2%, EFA 12M = +5% and BIL 12M = +1%, the highest risk
score (EFA, 5%) exceeds the defensive benchmark (1%), yet the code selects
the defensive AGG. -/
theorem C3_counterexample :
    decide_allocation_rule (-(2/100)) (5/100) (1/100) = "AGG" ∧
    (1/100 : ℚ) < max (-(2/100) : ℚ) (5/100) := by
  constructor
  · with_unfolding_all decide
  · rw [max_eq_right (by norm_num : (-(2/100) : ℚ) ≤ 5/100)]
    norm_num

/-- **C3 (amended).** `pick_asset` (`dualm.py`) matches the claim: it picks
the equity with the highest 12-month return and falls back to the bond
exactly when that return does not exceed the bond return (mode `"bond"`)
or zero (mode `"zero"`).  `decide_allocation` (`dualmomentom.py`) gates
only on SPY: AGG is selected exactly when SPY 12M ≤ BIL 12M — even when
EFA beats BIL — and when SPY beats BIL the higher of SPY/EFA is picked.
In both rules, when every risk return is below the defensive one, the
defensive candidate is selected. -/
theorem C3_dual_momentum_amended :
    (∀ rSpy rEfa rBil : ℚ, rSpy ≤ rBil →
      decide_allocation_rule rSpy rEfa rBil = "AGG")
    ∧ (∀ rSpy rEfa rBil : ℚ, rBil < rSpy →
      (decide_allocation_rule rSpy rEfa rBil = "SPY" ∧ rEfa ≤ rSpy) ∨
      (decide_allocation_rule rSpy rEfa rBil = "EFA" ∧ rSpy < rEfa))
    ∧ (∀ (eqs : List (String × ℚ)) (bondCode : String) (bondRet : ℚ)
        (x : String × ℚ), x ∈ eqs →
      ∃ c r, idxmaxQ eqs = some (c, r) ∧ (c, r) ∈ eqs ∧
        (∀ y ∈ eqs, y.2 ≤ r) ∧
        pick_asset eqs bondCode bondRet "bond" =
          some (if bondRet < r then c else bondCode) ∧
        pick_asset eqs bondCode bondRet "zero" =
          some (if 0 < r then c else bondCode)) := by
  refine ⟨?_, ?_, ?_⟩
  · intro rSpy rEfa rBil hle
    simp [decide_allocation_rule, not_lt.mpr hle]
  · intro rSpy rEfa rBil hlt
    simp only [decide_allocation_rule, if_pos hlt]
    by_cases he : rEfa ≤ rSpy
    · exact Or.inl ⟨by rw [if_pos he], he⟩
    · exact Or.inr ⟨by rw [if_neg he], not_le.mp he⟩
  · intro eqs bondCode bondRet x hx
    cases eqs with
    | nil => simp at hx
    | cons z zs =>
      obtain ⟨hmem, -, hall⟩ := foldl_max_spec zs z
      refine ⟨(zs.foldl (fun b y => if b.2 < y.2 then y else b) z).1,
        (zs.foldl (fun b y => if b.2 < y.2 then y else b) z).2, by
          simp [idxmaxQ], hmem, ?_, by
          simp [pick_asset, idxmaxQ], by
          simp [pick_asset, idxmaxQ]⟩
      intro y hy
      rcases List.mem_cons.mp hy with rfl | hy
      · exact (foldl_max_spec zs y).2.1
      · exact hall y hy

/-- Witness for the amended C3: SPY ≤ BIL forces AGG; SPY > BIL picks the
better of SPY/EFA; `pick_asset` on equities SPY (2) / EFA (1) with bond
return 0 holds the best equity in both modes. -/
theorem C3_dual_momentum_amended_witness :
    ((-(2/100) : ℚ) ≤ 1/100 ∧
      decide_allocation_rule (-(2/100)) (5/100) (1/100) = "AGG") ∧
    ((0 : ℚ) < 2 ∧
      ((decide_allocation_rule 2 1 0 = "SPY" ∧ (1 : ℚ) ≤ 2) ∨
       (decide_allocation_rule 2 1 0 = "EFA" ∧ (2 : ℚ) < 1))) ∧
    (("SPY", (2 : ℚ)) ∈ [("SPY", (2 : ℚ)), ("EFA", 1)] ∧
      ∃ c r, idxmaxQ [("SPY", (2 : ℚ)), ("EFA", 1)] = some (c, r) ∧
        (c, r) ∈ [("SPY", (2 : ℚ)), ("EFA", 1)] ∧
        (∀ y ∈ [("SPY", (2 : ℚ)), ("EFA", 1)], y.2 ≤ r) ∧
        pick_asset [("SPY", (2 : ℚ)), ("EFA", 1)] "AGG" 0 "bond" =
          some (if (0 : ℚ) < r then c else "AGG") ∧
        pick_asset [("SPY", (2 : ℚ)), ("EFA", 1)] "AGG" 0 "zero" =
          some (if (0 : ℚ) < r then c else "AGG")) :=
  ⟨⟨by norm_num,
    C3_dual_momentum_amended.1 (-(2/100)) (5/100) (1/100) (by norm_num)⟩,
   ⟨by norm_num, C3_dual_momentum_amended.2.1 2 1 0 (by norm_num)⟩,
   ⟨by with_unfolding_all decide,
    C3_dual_momentum_amended.2.2 [("SPY", (2 : ℚ)), ("EFA", 1)] "AGG" 0
      ("SPY", (2 : ℚ)) (by with_unfolding_all decide)⟩⟩

/-! ### idxmax over a column with missing values -/

lemma idxmaxFold_isSome (rows : List (String × Option ℚ)) :
    ∀ acc : Option (String × ℚ),
      ((∃ x ∈ rows, x.2.isSome) ∨ acc.isSome) →
      (rows.foldl idxmaxStep acc).isSome := by
  induction rows with
  | nil =>
    intro acc h
    rcases h with ⟨x, hx, -⟩ | h
    · simp at hx
    · simpa using h
  | cons z zs ih =>
    intro acc h
    simp only [List.foldl_cons]
    apply ih
    rcases h with ⟨x, hx, hs⟩ | hacc
    · rcases List.mem_cons.mp hx with rfl | hx
      · right
        rw [Option.isSome_iff_exists] at hs
        obtain ⟨s, hs⟩ := hs
        cases acc with
        | none => simp [idxmaxStep, hs]
        | some b => by_cases hlt : b.2 < s <;> simp [idxmaxStep, hs, hlt]
      · exact Or.inl ⟨x, hx, hs⟩
    · right
      rw [Option.isSome_iff_exists] at hacc
      obtain ⟨b, hb⟩ := hacc
      subst hb
      cases hz : z.2 with
      | none => simp [idxmaxStep, hz]
      | some s => by_cases hlt : b.2 < s <;> simp [idxmaxStep, hz, hlt]

lemma idxmaxFold_some_spec (rows : List (String × Option ℚ)) :
    ∀ (acc : Option (String × ℚ)) (b : String × ℚ),
      rows.foldl idxmaxStep acc = some b →
      ((b.1, some b.2) ∈ rows ∨ acc = some b) ∧
      (∀ x ∈ rows, ∀ t, x.2 = some t → t ≤ b.2) ∧
      (∀ a, acc = some a → a.2 ≤ b.2) := by
  induction rows with
  | nil =>
    intro acc b h
    simp only [List.foldl_nil] at h
    exact ⟨Or.inr h, by simp, fun a ha => by
      rw [ha] at h
      injection h with h
      rw [h]⟩
  | cons z zs ih =>
    intro acc b h
    simp only [List.foldl_cons] at h
    obtain ⟨hmem, hall, hacc⟩ := ih _ b h
    cases hz : z.2 with
    | none =>
      have hstep : idxmaxStep acc z = acc := by simp [idxmaxStep, hz]
      rw [hstep] at hmem hacc
      refine ⟨?_, ?_, hacc⟩
      · rcases hmem with h1 | h1
        · exact Or.inl (by simp [h1])
        · exact Or.inr h1
      · intro x hx t ht
        rcases List.mem_cons.mp hx with rfl | hx
        · rw [hz] at ht; cases ht
        · exact hall x hx t ht
    | some s =>
      cases acc with
      | none =>
        have hstep : idxmaxStep none z = some (z.1, s) := by
          simp [idxmaxStep, hz]
        rw [hstep] at hmem hacc
        have hsle : s ≤ b.2 := hacc (z.1, s) rfl
        refine ⟨?_, ?_, ?_⟩
        · rcases hmem with h1 | h1
          · exact Or.inl (by simp [h1])
          · injection h1 with h1
            exact Or.inl (by rw [← h1]; exact hz ▸ (by simp [← hz]))
        · intro x hx t ht
          rcases List.mem_cons.mp hx with rfl | hx
          · rw [hz] at ht
            injection ht with ht
            exact ht ▸ hsle
          · exact hall x hx t ht
        · intro a ha; cases ha
      | some bb =>
        by_cases hlt : bb.2 < s
        · have hstep : idxmaxStep (some bb) z = some (z.1, s) := by
            simp [idxmaxStep, hz, hlt]
          rw [hstep] at hmem hacc
          have hsle : s ≤ b.2 := hacc (z.1, s) rfl
          refine ⟨?_, ?_, ?_⟩
          · rcases hmem with h1 | h1
            · exact Or.inl (by simp [h1])
            · injection h1 with h1
              exact Or.inl (by rw [← h1]; exact hz ▸ (by simp [← hz]))
          · intro x hx t ht
            rcases List.mem_cons.mp hx with rfl | hx
            · rw [hz] at ht
              injection ht with ht
              exact ht ▸ hsle
            · exact hall x hx t ht
          · intro a ha
            injection ha with ha
            rw [← ha]
            exact (hlt.le.trans hsle)
        · have hstep : idxmaxStep (some bb) z = some bb := by
            simp [idxmaxStep, hz, hlt]
          rw [hstep] at hmem hacc
          refine ⟨?_, ?_, ?_⟩
          · rcases hmem with h1 | h1
            · exact Or.inl (by simp [h1])
            · exact Or.inr h1
          · intro x hx t ht
            rcases List.mem_cons.mp hx with rfl | hx
            · rw [hz] at ht
              injection ht with ht
              have hbb : bb.2 ≤ b.2 := hacc bb rfl
              exact ht ▸ ((not_lt.mp hlt).trans hbb)
            · exact hall x hx t ht
          · exact hacc

/-- **C4.** `decision_banner` (`vaa_efa.py`) stays in offense exactly when
every offense (공격자산) score is strictly positive, and then returns the
offense row attaining the maximum score; as soon as one offense score is
non-positive it returns the defense (안전자산) row attaining the maximum
score. -/
theorem C4_vigilant_allocation (aggr safe : List (String × Option ℚ)) :
    ((aggr ≠ []) → (∀ x ∈ aggr, ∃ s, x.2 = some s ∧ 0 < s) →
      ∃ c s, decision_banner aggr safe = some c ∧ (c, some s) ∈ aggr ∧
        ∀ x ∈ aggr, ∀ t, x.2 = some t → t ≤ s)
    ∧ ((∃ x ∈ aggr, ∃ s, x.2 = some s ∧ s ≤ 0) →
      (∃ y ∈ safe, y.2.isSome) →
      ∃ c s, decision_banner aggr safe = some c ∧ (c, some s) ∈ safe ∧
        ∀ y ∈ safe, ∀ t, y.2 = some t → t ≤ s) := by
  constructor
  · intro hne hpos
    have hall : aggr.all
        (fun r => match r.2 with | some s => decide (0 < s) | none => false) = true := by
      rw [List.all_eq_true]
      intro x hx
      obtain ⟨s, hs, hp⟩ := hpos x hx
      rw [hs]
      simpa using hp
    have hsome : (aggr.foldl idxmaxStep none).isSome := by
      apply idxmaxFold_isSome
      left
      cases aggr with
      | nil => exact absurd rfl hne
      | cons z zs =>
        obtain ⟨s, hs, -⟩ := hpos z (by simp)
        exact ⟨z, by simp, by simp [hs]⟩
    rw [Option.isSome_iff_exists] at hsome
    obtain ⟨b, hb⟩ := hsome
    obtain ⟨hmem, hmax, -⟩ := idxmaxFold_some_spec aggr none b hb
    refine ⟨b.1, b.2, ?_, ?_, hmax⟩
    · simp [decision_banner, hall, idxmaxOpt, hb]
    · rcases hmem with h1 | h1
      · exact h1
      · cases h1
  · intro hneg hsafe
    have hall : aggr.all
        (fun r => match r.2 with | some s => decide (0 < s) | none => false) = false := by
      obtain ⟨x, hx, s, hs, hnp⟩ := hneg
      rcases hb : aggr.all
          (fun r => match r.2 with | some s => decide (0 < s) | none => false) with _ | _
      · rfl
      · exfalso
        have := List.all_eq_true.mp hb x hx
        rw [hs] at this
        simp at this
        exact absurd this (not_lt.mpr hnp)
    have hsome : (safe.foldl idxmaxStep none).isSome := by
      apply idxmaxFold_isSome
      exact Or.inl hsafe
    rw [Option.isSome_iff_exists] at hsome
    obtain ⟨b, hb⟩ := hsome
    obtain ⟨hmem, hmax, -⟩ := idxmaxFold_some_spec safe none b hb
    refine ⟨b.1, b.2, ?_, ?_, hmax⟩
    · simp [decision_banner, hall, idxmaxOpt, hb]
    · rcases hmem with h1 | h1
      · exact h1
      · cases h1

/-- Witness for C4: offense scores (1, 2) all positive picks the offense
maximum; an offense score −1 flips to defense and picks the defense
maximum. -/
theorem C4_vigilant_allocation_witness :
    ((([("SPY", some (1 : ℚ)), ("EFA", some 2)] : List (String × Option ℚ)) ≠ []) ∧
      (∃ c s, decision_banner [("SPY", some (1 : ℚ)), ("EFA", some 2)]
          [("SHY", some (1 : ℚ))] = some c ∧
        (c, some s) ∈ [("SPY", some (1 : ℚ)), ("EFA", some 2)] ∧
        ∀ x ∈ [("SPY", some (1 : ℚ)), ("EFA", some 2)], ∀ t, x.2 = some t → t ≤ s)) ∧
    ((∃ x ∈ [("SPY", some (-1 : ℚ)), ("EFA", some 2)], ∃ s, x.2 = some s ∧ s ≤ 0) ∧
      ∃ c s, decision_banner [("SPY", some (-1 : ℚ)), ("EFA", some 2)]
          [("LQD", some (3 : ℚ)), ("SHY", some 1)] = some c ∧
        (c, some s) ∈ [("LQD", some (3 : ℚ)), ("SHY", some 1)] ∧
        ∀ y ∈ [("LQD", some (3 : ℚ)), ("SHY", some 1)], ∀ t, y.2 = some t → t ≤ s) :=
  ⟨⟨by with_unfolding_all decide,
    (C4_vigilant_allocation [("SPY", some (1 : ℚ)), ("EFA", some 2)]
        [("SHY", some (1 : ℚ))]).1 (by with_unfolding_all decide)
      (by
        intro x hx
        fin_cases hx
        · exact ⟨1, rfl, by norm_num⟩
        · exact ⟨2, rfl, by norm_num⟩)⟩,
   ⟨⟨("SPY", some (-1 : ℚ)), by simp, -1, rfl, by norm_num⟩,
    (C4_vigilant_allocation [("SPY", some (-1 : ℚ)), ("EFA", some 2)]
        [("LQD", some (3 : ℚ)), ("SHY", some 1)]).2
      ⟨("SPY", some (-1 : ℚ)), by simp, -1, rfl, by norm_num⟩
      ⟨("LQD", some (3 : ℚ)), by simp, by simp⟩⟩⟩

/-- **C5.** For a monthly series with at least 13 points, the momentum
engine computes each trailing return positionally as
`r_k = P(last) / P(last − k) − 1` for k ∈ {1, 3, 6, 12} and scores
`12·r1 + 4·r3 + 2·r6 + 1·r12` (`snapshot_momentum`, `vaa_efa.py`), and the
single-window variant returns `r_12` (`trailing_12m_return`,
`dualmomentom.py`); with fewer than 13 points both raise an
insufficient-history error instead of computing. -/
theorem C5_trailing_returns (l : List ℚ) :
    (13 ≤ l.length →
      snapshot_momentum l = .ok
        (l.getD (l.length - 1) 0 / l.getD (l.length - 1 - 1) 0 - 1,
         l.getD (l.length - 1) 0 / l.getD (l.length - 1 - 3) 0 - 1,
         l.getD (l.length - 1) 0 / l.getD (l.length - 1 - 6) 0 - 1,
         l.getD (l.length - 1) 0 / l.getD (l.length - 1 - 12) 0 - 1,
         12 * (l.getD (l.length - 1) 0 / l.getD (l.length - 1 - 1) 0 - 1) +
           4 * (l.getD (l.length - 1) 0 / l.getD (l.length - 1 - 3) 0 - 1) +
           2 * (l.getD (l.length - 1) 0 / l.getD (l.length - 1 - 6) 0 - 1) +
           1 * (l.getD (l.length - 1) 0 / l.getD (l.length - 1 - 12) 0 - 1)) ∧
      trailing_12m_return l = .ok
        (l.getD (l.length - 1) 0 / l.getD (l.length - 1 - 12) 0 - 1)) ∧
    (l.length < 13 →
      (∃ m, snapshot_momentum l = .error m) ∧
      (∃ m, trailing_12m_return l = .error m)) := by
  constructor
  · intro h13
    have e1 : l.length - 1 - 1 = l.length - 2 := by omega
    have e3 : l.length - 1 - 3 = l.length - 4 := by omega
    have e6 : l.length - 1 - 6 = l.length - 7 := by omega
    have e12 : l.length - 1 - 12 = l.length - 13 := by omega
    have hn : ¬ l.length < MIN_MONTHS := by
      rw [MIN_MONTHS]; omega
    have hn' : ¬ l.length < 13 := by omega
    constructor
    · rw [snapshot_momentum, if_neg hn, e1, e3, e6, e12]
      rfl
    · rw [trailing_12m_return, if_neg hn', e12]
  · intro hlt
    have hn : l.length < MIN_MONTHS := by rw [MIN_MONTHS]; omega
    exact ⟨⟨_, by rw [snapshot_momentum, if_pos hn]⟩,
      ⟨_, by rw [trailing_12m_return, if_pos hlt]⟩⟩

/-- Witness for C5: a concrete 13-month series and a concrete 1-month
series. -/
theorem C5_trailing_returns_witness :
    (13 ≤ ([1, 2, 3, 4, 5, 6, 7, 8, 9, 10, 11, 12, 13] : List ℚ).length ∧
      snapshot_momentum ([1, 2, 3, 4, 5, 6, 7, 8, 9, 10, 11, 12, 13] : List ℚ) =
        .ok (1/12, 3/10, 6/7, 12, 12 * (1/12) + 4 * (3/10) + 2 * (6/7) + 1 * 12)) ∧
    (([(5 : ℚ)] : List ℚ).length < 13 ∧
      (∃ m, snapshot_momentum ([(5 : ℚ)] : List ℚ) = .error m) ∧
      (∃ m, trailing_12m_return ([(5 : ℚ)] : List ℚ) = .error m)) := by
  refine ⟨⟨by decide, ?_⟩, ⟨by decide, ?_⟩⟩
  · have h := (C5_trailing_returns ([1, 2, 3, 4, 5, 6, 7, 8, 9, 10, 11, 12, 13] : List ℚ)).1
      (by decide)
    rw [h.1]
    exact congrArg Except.ok (by norm_num [List.getD])
  · exact (C5_trailing_returns ([(5 : ℚ)] : List ℚ)).2 (by decide)

/-- **C6.** Idempotence at a fixed point: if every line of a successful
rebalance already has 보유수량 equal to the 목표수량 the calculator computes
(same prices, same weights, same fee rate), then every line has trade
quantity 0, zero fees and zero buy/sell/net amounts, and the total fee of
the summary is 0 (the greedy sweep is not entered since no cash is
freed). -/
theorem C6_idempotence (fuel : ℕ) (h : List (String × ℤ))
    (pm tw : List (String × ℚ)) (f : ℚ) (g : Bool)
    (hfix : ∀ k, k < (linesOut (compute_rebalance fuel h pm tw f g)).length →
      (lineAt (compute_rebalance fuel h pm tw f g) k).qty =
        (lineAt (compute_rebalance fuel h pm tw f g) k).targetQty) :
    (∀ k, (lineAt (compute_rebalance fuel h pm tw f g) k).tradeQty = 0 ∧
      (lineAt (compute_rebalance fuel h pm tw f g) k).buyFee = 0 ∧
      (lineAt (compute_rebalance fuel h pm tw f g) k).sellFee = 0 ∧
      (lineAt (compute_rebalance fuel h pm tw f g) k).buyAmt = 0 ∧
      (lineAt (compute_rebalance fuel h pm tw f g) k).sellAmt = 0 ∧
      (lineAt (compute_rebalance fuel h pm tw f g) k).netAmt = 0) ∧
    (summaryOut (compute_rebalance fuel h pm tw f g)).totalFee = 0 := by
  cases hR : compute_rebalance fuel h pm tw f g with
  | none =>
    rw [hR] at hfix
    constructor
    · intro k
      simp [lineAt, linesOut, dflLine]
    · simp [summaryOut, dflSummary]
  | some e =>
    cases e with
    | error m =>
      rw [hR] at hfix
      constructor
      · intro k
        simp [lineAt, linesOut, dflLine]
      · simp [summaryOut, dflSummary]
    | ok p =>
      obtain ⟨out, s⟩ := p
      rw [hR] at hfix
      simp only [lineAt, linesOut] at hfix ⊢
      -- the fixed-point hypothesis on the members of `out`
      have hfix' : ∀ l' ∈ out, l'.qty = l'.targetQty := by
        intro l' hl'
        obtain ⟨k, hk, hkeq⟩ := List.mem_iff_getElem.mp hl'
        have := hfix k hk
        rw [List.getD_eq_getElem _ _ hk, hkeq] at this
        exact this
      -- transfer to the pre-greedy table
      have hpre : ∀ l ∈ linesOf h pm tw f, l.qty = l.targetQty := by
        intro l hl
        obtain ⟨l', hl', heq⟩ := origin_out hR l hl
        obtain ⟨-, hq, -, -, -, htq, -, -⟩ := heq
        rw [← hq, ← htq]
        exact hfix' l' hl'
      have htr : ∀ l ∈ linesOf h pm tw f, l.tradeQty = 0 := by
        intro l hl
        rw [line_trade_eq hl, ← hpre l hl, sub_self]
      have hz : ∀ l ∈ linesOf h pm tw f,
          l.buyFee = 0 ∧ l.sellFee = 0 ∧ l.buyAmt = 0 ∧ l.sellAmt = 0 ∧
          l.netAmt = 0 := by
        intro l hl
        have hl' := hl
        obtain ⟨pr, hpr, rfl⟩ := List.mem_map.mp hl'
        exact mkLine_trade_zero _ _ _ _ _ _ (htr _ hl)
      have hsb : sumBuy (linesOf h pm tw f) = 0 := by
        apply List.sum_eq_zero
        intro x hx
        obtain ⟨l, hl, rfl⟩ := List.mem_map.mp hx
        exact (hz l hl).2.2.1
      have hss : sumSell (linesOf h pm tw f) = 0 := by
        apply List.sum_eq_zero
        intro x hx
        obtain ⟨l, hl, rfl⟩ := List.mem_map.mp hx
        exact (hz l hl).2.2.2.1
      have hsf : sumFee (linesOf h pm tw f) = 0 := by
        apply List.sum_eq_zero
        intro x hx
        obtain ⟨l, hl, rfl⟩ := List.mem_map.mp hx
        rw [(hz l hl).1, (hz l hl).2.1, add_zero]
      obtain ⟨lines2, houtEq, hsEq, hcase⟩ := compute_ok_cases hR
      have hlines2 : lines2 = linesOf h pm tw f := by
        rcases hcase with h1 | ⟨res, cf, -, -, hguard⟩
        · exact h1
        · rw [hss, hsb] at hguard
          norm_num at hguard
      subst hlines2
      subst houtEq
      constructor
      · intro k
        by_cases hk : k < (sortLines (linesOf h pm tw f)).length
        · have hmem : (sortLines (linesOf h pm tw f)).getD k dflLine ∈
              sortLines (linesOf h pm tw f) := by
            rw [List.getD_eq_getElem _ _ hk]
            exact List.getElem_mem hk
          have hmem' : (sortLines (linesOf h pm tw f)).getD k dflLine ∈
              linesOf h pm tw f := mem_sortLines.mp hmem
          obtain ⟨hbf, hsf', hba, hsa, hna⟩ := hz _ hmem'
          exact ⟨htr _ hmem', hbf, hsf', hba, hsa, hna⟩
        · rw [List.getD_eq_default _ _ (not_lt.mp hk)]
          simp [dflLine]
      · simp only [summaryOut]
        rw [hsEq]
        exact hsf

/-- Witness for C6: one holding of 5 shares at price 10 with weight 1 and
fee rate 1/1000 is already at its target quantity (⌊50/10⌋ = 5). -/
theorem C6_idempotence_witness :
    (∀ k, k < (linesOut (compute_rebalance 10 [("A", 5)] [("A", 10)]
        [("A", 1)] (1/1000) true)).length →
      (lineAt (compute_rebalance 10 [("A", 5)] [("A", 10)] [("A", 1)]
          (1/1000) true) k).qty =
        (lineAt (compute_rebalance 10 [("A", 5)] [("A", 10)] [("A", 1)]
            (1/1000) true) k).targetQty) ∧
    ((∀ k, (lineAt (compute_rebalance 10 [("A", 5)] [("A", 10)] [("A", 1)]
          (1/1000) true) k).tradeQty = 0 ∧
        (lineAt (compute_rebalance 10 [("A", 5)] [("A", 10)] [("A", 1)]
            (1/1000) true) k).buyFee = 0 ∧
        (lineAt (compute_rebalance 10 [("A", 5)] [("A", 10)] [("A", 1)]
            (1/1000) true) k).sellFee = 0 ∧
        (lineAt (compute_rebalance 10 [("A", 5)] [("A", 10)] [("A", 1)]
            (1/1000) true) k).buyAmt = 0 ∧
        (lineAt (compute_rebalance 10 [("A", 5)] [("A", 10)] [("A", 1)]
            (1/1000) true) k).sellAmt = 0 ∧
        (lineAt (compute_rebalance 10 [("A", 5)] [("A", 10)] [("A", 1)]
            (1/1000) true) k).netAmt = 0) ∧
      (summaryOut (compute_rebalance 10 [("A", 5)] [("A", 10)] [("A", 1)]
          (1/1000) true)).totalFee = 0) :=
  ⟨by with_unfolding_all decide,
   C6_idempotence 10 [("A", 5)] [("A", 10)] [("A", 1)] (1/1000) true
     (by with_unfolding_all decide)⟩

/-- **C7 counterexample.** The claim says all monetary fields — including
the fees — are recomputed consistently after the greedy sweep.  On
holdings A:10, B:1, C:1 with prices 100/300/7, weights B,C = 1/2 and fee
rate 1/1000, the sweep buys 7 extra shares of C (trade 92 → 99).  The
recomputed buy amount of C is round(99·7) = 693, but its buy fee stays at
the pre-sweep 644·(1/1000) = 161/250 ≠ 693·(1/1000); and the sell amount
of A is recomputed to round(1000) = 1000, no longer the fee-adjusted
round(1000 − 1) = 999 the pre-sweep formula produces. -/
theorem C7_counterexample :
    (lineAt (compute_rebalance 50 [("A", 10), ("B", 1), ("C", 1)]
        [("A", 100), ("B", 300), ("C", 7)] [("B", 1/2), ("C", 1/2)]
        (1/1000) true) 1).code = "C" ∧
    (lineAt (compute_rebalance 50 [("A", 10), ("B", 1), ("C", 1)]
        [("A", 100), ("B", 300), ("C", 7)] [("B", 1/2), ("C", 1/2)]
        (1/1000) true) 1).tradeQty = 99 ∧
    (lineAt (compute_rebalance 50 [("A", 10), ("B", 1), ("C", 1)]
        [("A", 100), ("B", 300), ("C", 7)] [("B", 1/2), ("C", 1/2)]
        (1/1000) true) 1).buyAmt = 693 ∧
    (lineAt (compute_rebalance 50 [("A", 10), ("B", 1), ("C", 1)]
        [("A", 100), ("B", 300), ("C", 7)] [("B", 1/2), ("C", 1/2)]
        (1/1000) true) 1).buyFee = 161/250 ∧
    ¬ ((lineAt (compute_rebalance 50 [("A", 10), ("B", 1), ("C", 1)]
        [("A", 100), ("B", 300), ("C", 7)] [("B", 1/2), ("C", 1/2)]
        (1/1000) true) 1).buyFee =
      (1/1000) *
        (((max (lineAt (compute_rebalance 50 [("A", 10), ("B", 1), ("C", 1)]
            [("A", 100), ("B", 300), ("C", 7)] [("B", 1/2), ("C", 1/2)]
            (1/1000) true) 1).tradeQty 0 : ℤ) : ℚ) *
          (lineAt (compute_rebalance 50 [("A", 10), ("B", 1), ("C", 1)]
            [("A", 100), ("B", 300), ("C", 7)] [("B", 1/2), ("C", 1/2)]
            (1/1000) true) 1).price)) ∧
    (lineAt (compute_rebalance 50 [("A", 10), ("B", 1), ("C", 1)]
        [("A", 100), ("B", 300), ("C", 7)] [("B", 1/2), ("C", 1/2)]
        (1/1000) true) 2).code = "A" ∧
    (lineAt (compute_rebalance 50 [("A", 10), ("B", 1), ("C", 1)]
        [("A", 100), ("B", 300), ("C", 7)] [("B", 1/2), ("C", 1/2)]
        (1/1000) true) 2).sellAmt = 1000 ∧
    (lineAt (compute_rebalance 50 [("A", 10), ("B", 1), ("C", 1)]
        [("A", 100), ("B", 300), ("C", 7)] [("B", 1/2), ("C", 1/2)]
        (1/1000) true) 2).sellFee = 1 ∧
    ¬ ((lineAt (compute_rebalance 50 [("A", 10), ("B", 1), ("C", 1)]
        [("A", 100), ("B", 300), ("C", 7)] [("B", 1/2), ("C", 1/2)]
        (1/1000) true) 2).sellAmt =
      ((roundHE
        (((max (-(lineAt (compute_rebalance 50 [("A", 10), ("B", 1), ("C", 1)]
            [("A", 100), ("B", 300), ("C", 7)] [("B", 1/2), ("C", 1/2)]
            (1/1000) true) 2).tradeQty) 0 : ℤ) : ℚ) *
          (lineAt (compute_rebalance 50 [("A", 10), ("B", 1), ("C", 1)]
            [("A", 100), ("B", 300), ("C", 7)] [("B", 1/2), ("C", 1/2)]
            (1/1000) true) 2).price -
          (lineAt (compute_rebalance 50 [("A", 10), ("B", 1), ("C", 1)]
            [("A", 100), ("B", 300), ("C", 7)] [("B", 1/2), ("C", 1/2)]
            (1/1000) true) 2).sellFee) : ℤ) : ℚ)) := by
  with_unfolding_all decide

/-- **C7 (amended).** After the residual-cash sweep, `greedy_cash_spend`
recomputes the buy amount, sell amount and net amount of every line from
the post-sweep trade quantities as `round(quantity × price)` — WITHOUT the
fee component that the pre-sweep amounts included — and it leaves the
buy/sell fee columns at their pre-sweep values instead of recomputing them
from the updated amounts. -/
theorem C7_sweep_recompute_amended (fuel : ℕ) (lines : List Line) (c : ℚ)
    (hc : 0 < c) (hs : (greedy_cash_spend fuel lines c).isSome) :
    ((greedy_cash_spend fuel lines c).getD []).length = lines.length ∧
    ∀ k, k < lines.length →
      (((greedy_cash_spend fuel lines c).getD []).getD k dflLine).code =
        (lines.getD k dflLine).code ∧
      (((greedy_cash_spend fuel lines c).getD []).getD k dflLine).buyFee =
        (lines.getD k dflLine).buyFee ∧
      (((greedy_cash_spend fuel lines c).getD []).getD k dflLine).sellFee =
        (lines.getD k dflLine).sellFee ∧
      (((greedy_cash_spend fuel lines c).getD []).getD k dflLine).buyAmt =
        ((roundHE (((max (((greedy_cash_spend fuel lines c).getD []).getD k
            dflLine).tradeQty 0 : ℤ) : ℚ) *
          (((greedy_cash_spend fuel lines c).getD []).getD k dflLine).price) : ℤ) : ℚ) ∧
      (((greedy_cash_spend fuel lines c).getD []).getD k dflLine).sellAmt =
        ((roundHE (((max (-(((greedy_cash_spend fuel lines c).getD []).getD k
            dflLine).tradeQty) 0 : ℤ) : ℚ) *
          (((greedy_cash_spend fuel lines c).getD []).getD k dflLine).price) : ℤ) : ℚ) ∧
      (((greedy_cash_spend fuel lines c).getD []).getD k dflLine).netAmt =
        (((greedy_cash_spend fuel lines c).getD []).getD k dflLine).buyAmt -
        (((greedy_cash_spend fuel lines c).getD []).getD k dflLine).sellAmt := by
  rw [Option.isSome_iff_exists] at hs
  obtain ⟨out, hout⟩ := hs
  rw [hout]
  simp only [Option.getD_some]
  unfold greedy_cash_spend at hout
  rw [if_neg (not_le.mpr hc)] at hout
  cases hrun : greedyRun (fun i => (lines.getD i dflLine).price) fuel
      (greedyOrder lines) c with
  | none => rw [hrun] at hout; simp at hout
  | some pr =>
    obtain ⟨res, cf⟩ := pr
    rw [hrun] at hout
    simp only [Option.some.injEq] at hout
    subst hout
    refine ⟨applySweep_length res 0 lines, ?_⟩
    intro k hk
    rw [applySweep_getD res 0 k lines hk]
    simp [recomputeAmts, bumpLine]

/-- The concrete line and sweep used by the C7 witness: price 2, value gap
10, (arbitrary) pre-sweep fees 1/2 and 1/3, stale amounts 9. -/
def c7line : Line :=
  { code := "C", qty := 0, price := 2, weight := 0, curValue := 0,
    targetValue := 10, targetQty := 0, tradeQty := 0, afterQty := 0,
    afterValue := 0, buyFee := 1/2, sellFee := 1/3, buyAmt := 9,
    sellAmt := 9, netAmt := 0 }

def c7out : List Line := (greedy_cash_spend 10 [c7line] 5).getD []

/-- Witness for the amended C7: cash 5 buys 2 extra shares of `c7line`,
the amounts are recomputed fee-free and the fee fields keep their
pre-sweep values 1/2 and 1/3. -/
theorem C7_sweep_recompute_amended_witness :
    (0 : ℚ) < 5 ∧
    (greedy_cash_spend 10 [c7line] 5).isSome ∧
    (c7out.length = [c7line].length ∧
      ∀ k, k < [c7line].length →
        (c7out.getD k dflLine).code = ([c7line].getD k dflLine).code ∧
        (c7out.getD k dflLine).buyFee = ([c7line].getD k dflLine).buyFee ∧
        (c7out.getD k dflLine).sellFee = ([c7line].getD k dflLine).sellFee ∧
        (c7out.getD k dflLine).buyAmt =
          ((roundHE (((max (c7out.getD k dflLine).tradeQty 0 : ℤ) : ℚ) *
            (c7out.getD k dflLine).price) : ℤ) : ℚ) ∧
        (c7out.getD k dflLine).sellAmt =
          ((roundHE (((max (-(c7out.getD k dflLine).tradeQty) 0 : ℤ) : ℚ) *
            (c7out.getD k dflLine).price) : ℤ) : ℚ) ∧
        (c7out.getD k dflLine).netAmt =
          (c7out.getD k dflLine).buyAmt - (c7out.getD k dflLine).sellAmt) :=
  ⟨by norm_num,
   by with_unfolding_all decide,
   C7_sweep_recompute_amended 10 [c7line] 5 (by norm_num)
     (by with_unfolding_all decide)⟩

/-! ### Error propagation lemmas -/

lemma addQty_nonpos (c : String) (q : ℤ) (hq : q ≤ 0) :
    ∀ acc : List (String × ℤ), (∀ a ∈ acc, a.2 ≤ 0) →
      ∀ x ∈ addQty acc c q, x.2 ≤ 0 := by
  intro acc
  induction acc with
  | nil =>
    intro _ x hx
    simp only [addQty, List.mem_singleton] at hx
    rw [hx]
    exact hq
  | cons a as ih =>
    intro hacc x hx
    simp only [addQty] at hx
    split at hx
    · rcases List.mem_cons.mp hx with rfl | hx
      · exact add_nonpos (hacc a (by simp)) hq
      · exact hacc x (by simp [hx])
    · rcases List.mem_cons.mp hx with rfl | hx
      · exact hacc x (by simp)
      · exact ih (fun a ha => hacc a (by simp [ha])) x hx

lemma foldl_addQty_nonpos (rows : List (String × ℤ)) :
    ∀ acc : List (String × ℤ),
      (∀ r ∈ rows, r.2 ≤ 0) → (∀ a ∈ acc, a.2 ≤ 0) →
      ∀ x ∈ rows.foldl (fun acc r => addQty acc r.1 r.2) acc, x.2 ≤ 0 := by
  induction rows with
  | nil => intro acc _ hacc x hx; exact hacc x hx
  | cons r rs ih =>
    intro acc hr hacc x hx
    simp only [List.foldl_cons] at hx
    exact ih (addQty acc r.1 r.2) (fun a ha => hr a (by simp [ha]))
      (addQty_nonpos r.1 r.2 (hr r (by simp)) acc hacc) x hx

lemma tryProxies_none (mOf : String → List ℚ) :
    ∀ ps : List String, (∀ p ∈ ps, (mOf p).length < MIN_MONTHS) →
      tryProxies mOf ps = none := by
  intro ps
  induction ps with
  | nil => intro _; rfl
  | cons p ps ih =>
    intro hp
    simp only [tryProxies]
    rw [if_neg (not_le.mpr (hp p (by simp)))]
    exact ih (fun q hq => hp q (by simp [hq]))

/-- **C8 counterexample.** The claim says no code path replaces an
insufficient-history score with a default/None value that lets the
computation continue.  But `resolve_with_proxy` (`vaa_efa.py`), given a
ticker (and proxies) with no data, returns the `"데이터없음"` marker with a
`None` momentum tuple instead of raising, and `decision_banner` then
proceeds, treating the missing score as a failed positivity check and
picking from the defensive group. -/
theorem C8_counterexample :
    resolve_with_proxy (fun _ => []) (fun _ => []) "SPY" =
      ("SPY", "데이터없음", none) ∧
    decision_banner
      [("미국 주식SPY", none), ("선진국 주식EFA", some (1/10))]
      [("미국 단기국채SHY", some (1/100))] = some "미국 단기국채SHY" := by
  constructor
  · simp [resolve_with_proxy, tryProxies, MIN_MONTHS]
  · decide

/-- **C8 (amended).** The rebalance calculator raises typed failures: a
held instrument with no price aborts the run, a weight table whose sum is
off by more than 1e-6 aborts the run, and holdings with no positive
quantity after normalisation abort loading; the momentum functions raise
on insufficient history.  The VAA pipeline, however, does not propagate
the insufficient-history failure: `resolve_with_proxy` converts it into a
`"데이터없음"` row with a `None` score and the run continues. -/
theorem C8_error_propagation_amended :
    (∀ (fuel : ℕ) (h : List (String × ℤ)) (pm tw : List (String × ℚ))
        (f : ℚ) (g : Bool) (c : String) (q : ℤ),
      (c, q) ∈ h → lookupPrice pm c = none →
      ∃ m, compute_rebalance fuel h pm tw f g = some (.error m))
    ∧ (∀ (fuel : ℕ) (h : List (String × ℤ)) (pm tw : List (String × ℚ))
        (f : ℚ) (g : Bool),
      (∀ x ∈ h, (lookupPrice pm x.1).isSome) →
      1/1000000 < |sumWeights tw - 1| →
      ∃ m, compute_rebalance fuel h pm tw f g = some (.error m))
    ∧ (∀ rows : List (Option String × ℤ), (∀ r ∈ rows, r.2 ≤ 0) →
      ∃ m, load_holdings_core rows = .error m)
    ∧ (∀ l : List ℚ, l.length < 13 →
      (∃ m, snapshot_momentum l = .error m) ∧
      (∃ m, trailing_12m_return l = .error m))
    ∧ (∀ (mOf : String → List ℚ) (prx : String → List String) (t : String),
      (mOf t).length < MIN_MONTHS →
      (∀ p ∈ prx t, (mOf p).length < MIN_MONTHS) →
      resolve_with_proxy mOf prx t = (t, "데이터없음", none)) := by
  refine ⟨?_, ?_, ?_, ?_, ?_⟩
  · intro fuel h pm tw f g c q hcq hnone
    have hsome : (h.find? (fun x => (lookupPrice pm x.1).isNone)).isSome := by
      rw [List.find?_isSome]
      exact ⟨(c, q), hcq, by simp [hnone]⟩
    rw [Option.isSome_iff_exists] at hsome
    obtain ⟨y, hy⟩ := hsome
    refine ⟨"가격을 찾지 못한 코드: " ++ y.1, ?_⟩
    unfold compute_rebalance
    rw [hy]
  · intro fuel h pm tw f g hp hw
    have hfind : h.find? (fun x => (lookupPrice pm x.1).isNone) = none := by
      rw [List.find?_eq_none]
      intro x hx
      have h1 := hp x hx
      rw [Option.isSome_iff_ne_none] at h1
      simpa [Option.isNone_iff_eq_none] using h1
    refine ⟨"TARGET_WEIGHTS 합계가 1이 아닙니다. 설정을 확인하세요.", ?_⟩
    unfold compute_rebalance
    rw [hfind, if_pos hw]
  · intro rows hr
    have hclean : ∀ r ∈ rows.filterMap (fun r => r.1.map (fun c => (c, r.2))),
        r.2 ≤ 0 := by
      intro r hmem
      obtain ⟨a, ha, hmap⟩ := List.mem_filterMap.mp hmem
      cases hcase : a.1 with
      | none => rw [hcase] at hmap; cases hmap
      | some c =>
        rw [hcase] at hmap
        have hca : (c, a.2) = r := by simpa using hmap
        rw [← hca]
        exact hr a ha
    have hagg : ∀ x ∈ aggregateRows
        (rows.filterMap (fun r => r.1.map (fun c => (c, r.2)))), x.2 ≤ 0 :=
      foldl_addQty_nonpos _ _ hclean (by simp)
    have hnil : (aggregateRows
        (rows.filterMap (fun r => r.1.map (fun c => (c, r.2))))).filter
        (fun x => decide (0 < x.2)) = [] := by
      rw [List.filter_eq_nil_iff]
      intro a ha
      simpa using not_lt.mpr (hagg a ha)
    refine ⟨"유효한 보유 종목(수량>0)이 없습니다. 파일 내용을 확인하세요.", ?_⟩
    simp [load_holdings_core, hnil]
  · intro l hl
    have hn : l.length < MIN_MONTHS := by rw [MIN_MONTHS]; omega
    exact ⟨⟨_, by rw [snapshot_momentum, if_pos hn]⟩,
      ⟨_, by rw [trailing_12m_return, if_pos hl]⟩⟩
  · intro mOf prx t ht hps
    unfold resolve_with_proxy
    rw [if_neg (not_le.mpr ht), tryProxies_none mOf (prx t) hps]

/-- Witness for the amended C8 at concrete inputs: a held code with no
price, a bad weight table, all-nonpositive holdings, a 1-point series, and
a data source with no history. -/
theorem C8_error_propagation_amended_witness :
    ((("X", (1 : ℤ)) ∈ [("X", (1 : ℤ))] ∧ lookupPrice [] "X" = none) ∧
      ∃ m, compute_rebalance 5 [("X", 1)] [] [] 0 true = some (.error m)) ∧
    (((∀ x ∈ [("X", (1 : ℤ))], (lookupPrice [("X", (2 : ℚ))] x.1).isSome) ∧
        (1 : ℚ)/1000000 < |sumWeights [("X", (1/2 : ℚ))] - 1|) ∧
      ∃ m, compute_rebalance 5 [("X", 1)] [("X", 2)] [("X", 1/2)] 0 true =
        some (.error m)) ∧
    ((∀ r ∈ [(some "X", (0 : ℤ)), (some "Y", -2)], r.2 ≤ 0) ∧
      ∃ m, load_holdings_core [(some "X", (0 : ℤ)), (some "Y", -2)] = .error m) ∧
    (([(4 : ℚ)] : List ℚ).length < 13 ∧
      (∃ m, snapshot_momentum [(4 : ℚ)] = .error m) ∧
      (∃ m, trailing_12m_return [(4 : ℚ)] = .error m)) ∧
    (((fun _ => ([] : List ℚ)) "SPY").length < MIN_MONTHS ∧
      (∀ p ∈ (fun _ => ([] : List String)) "SPY",
        (((fun _ => ([] : List ℚ)) p)).length < MIN_MONTHS) ∧
      resolve_with_proxy (fun _ => []) (fun _ => []) "SPY" =
        ("SPY", "데이터없음", none)) := by
  refine ⟨⟨⟨by decide, by with_unfolding_all decide⟩, ?_⟩,
    ⟨⟨by with_unfolding_all decide, by with_unfolding_all decide⟩, ?_⟩,
    ⟨by decide, ?_⟩, ⟨by decide, ?_⟩, ⟨by decide, by decide, ?_⟩⟩
  · exact C8_error_propagation_amended.1 5 [("X", 1)] [] [] 0 true "X" 1
      (by decide) (by with_unfolding_all decide)
  · exact C8_error_propagation_amended.2.1 5 [("X", 1)] [("X", 2)]
      [("X", 1/2)] 0 true (by with_unfolding_all decide)
      (by with_unfolding_all decide)
  · exact C8_error_propagation_amended.2.2.1 [(some "X", (0 : ℤ)), (some "Y", -2)]
      (by decide)
  · exact C8_error_propagation_amended.2.2.2.1 [(4 : ℚ)] (by decide)
  · exact C8_error_propagation_amended.2.2.2.2 (fun _ => []) (fun _ => [])
      "SPY" (by decide) (by decide)

/-- **C9.** A successful rebalance emits trade lines exactly for the
instruments of the input holdings (the output codes are a permutation of
the holdings codes).  In particular an instrument that has a positive
target weight but is absent from the holdings gets no trade line — and
hence no buy order — while the run still succeeds: its weight share is
silently left undeployed. -/
theorem C9_lines_only_for_holdings (fuel : ℕ) (h : List (String × ℤ))
    (pm tw : List (String × ℚ)) (f : ℚ) (g : Bool)
    (hok : isOkResult (compute_rebalance fuel h pm tw f g) = true) :
    ((linesOut (compute_rebalance fuel h pm tw f g)).map Line.code).Perm
      (h.map Prod.fst) ∧
    ∀ c w, (c, w) ∈ tw → 0 < w → c ∉ h.map Prod.fst →
      c ∉ (linesOut (compute_rebalance fuel h pm tw f g)).map Line.code := by
  cases hR : compute_rebalance fuel h pm tw f g with
  | none => rw [hR] at hok; simp [isOkResult] at hok
  | some e =>
    cases e with
    | error m => rw [hR] at hok; simp [isOkResult] at hok
    | ok p =>
      obtain ⟨out, s⟩ := p
      have hperm := out_codes_perm hR
      constructor
      · simpa [linesOut] using hperm
      · intro c w hcw hw hcnot hcmem
        exact hcnot (hperm.mem_iff.mp (by simpa [linesOut] using hcmem))

/-- Witness for C9: holdings contain only X; the weight table gives Z a
positive weight 1/2; the run succeeds, the single output line is for X,
and no line (hence no buy) is emitted for Z. -/
theorem C9_lines_only_for_holdings_witness :
    isOkResult (compute_rebalance 20 [("X", 10)] [("X", 100)]
      [("X", 1/2), ("Z", 1/2)] 0 true) = true ∧
    ((linesOut (compute_rebalance 20 [("X", 10)] [("X", 100)]
        [("X", 1/2), ("Z", 1/2)] 0 true)).map Line.code).Perm
      (([("X", (10 : ℤ))] : List (String × ℤ)).map Prod.fst) ∧
    (("Z", (1/2 : ℚ)) ∈ [("X", (1/2 : ℚ)), ("Z", 1/2)] ∧
      (0 : ℚ) < 1/2 ∧
      "Z" ∉ (([("X", (10 : ℤ))] : List (String × ℤ)).map Prod.fst) ∧
      "Z" ∉ (linesOut (compute_rebalance 20 [("X", 10)] [("X", 100)]
        [("X", 1/2), ("Z", 1/2)] 0 true)).map Line.code) :=
  ⟨by with_unfolding_all decide,
   (C9_lines_only_for_holdings 20 [("X", 10)] [("X", 100)]
      [("X", 1/2), ("Z", 1/2)] 0 true (by with_unfolding_all decide)).1,
   ⟨by with_unfolding_all decide, by norm_num, by with_unfolding_all decide,
    (C9_lines_only_for_holdings 20 [("X", 10)] [("X", 100)]
        [("X", 1/2), ("Z", 1/2)] 0 true (by with_unfolding_all decide)).2
      "Z" (1/2) (by with_unfolding_all decide) (by norm_num)
      (by with_unfolding_all decide)⟩⟩

end Stocks
